import Mathlib

/-!
# Versioned State Engine — formal model

A shallow embedding of the core of the `self-iterating-documentation`
repository: the `VersionControlEngine` of `src/core/version-control.ts`
together with the PostgreSQL schema, triggers and stored functions of
`database/schema.sql`.  The store (Supabase/PostgreSQL) is modelled as an
in-memory record of the three core tables; the engine's operations are
translated statement by statement.
-/

mutual
/-- A JSONB value, as stored in the `field_value`, `old_value` and
`new_value` columns.  Equality is structural, matching JSONB `=`. -/
inductive JsonValue : Type where
  | null : JsonValue
  | bool : Bool → JsonValue
  | num : Int → JsonValue
  | str : String → JsonValue
  | arr : JsonArray → JsonValue
  | obj : JsonObject → JsonValue
deriving DecidableEq, Repr

/-- A JSON array (a cons-list of values). -/
inductive JsonArray : Type where
  | nil : JsonArray
  | cons : JsonValue → JsonArray → JsonArray
deriving DecidableEq, Repr

/-- A JSON object (an ordered list of key/value members). -/
inductive JsonObject : Type where
  | nil : JsonObject
  | cons : String → JsonValue → JsonObject → JsonObject
deriving DecidableEq, Repr
end

/-- JavaScript truthiness of a JSON value, used by the engine's
`previousState[f]?.field_value || null` expression: `null`, `false`, `0`
and the empty string are falsy, everything else (objects and arrays
included) is truthy. -/
def JsonValue.isTruthy : JsonValue → Bool
  | .null => false
  | .bool b => b
  | .num n => n != 0
  | .str s => s != ""
  | .arr _ => true
  | .obj _ => true

/-!
## SHA-1

`generateVersionHash` runs `crypto.createHash('sha1')` over its content
string.  The hash itself is modelled bit-faithfully (FIPS 180-1), on the
byte sequence of the content; content strings are taken byte-per-character
(exact for the ASCII inputs used throughout). 32-bit words are `Nat`
reduced modulo `2 ^ 32`.
-/

/-- Truncate to a 32-bit word. -/
def w32 (n : Nat) : Nat := n % 4294967296

/-- Left-rotate a 32-bit word by `k` bits. -/
def rotl (k n : Nat) : Nat :=
  w32 (Nat.lor (Nat.shiftLeft n k) (Nat.shiftRight n (32 - k)))

/-- Bytes of a string, one per character (UTF-8 agrees on ASCII input). -/
def strBytes (s : String) : List Nat := s.data.map Char.toNat

/-- Big-endian bytes of the 64-bit message bit length. -/
def lenBytes (bits : Nat) : List Nat :=
  [56, 48, 40, 32, 24, 16, 8, 0].map (fun k => Nat.shiftRight bits k % 256)

/-- SHA-1 padding: `0x80`, zeros to 56 mod 64, then the bit length. -/
def sha1pad (ms : List Nat) : List Nat :=
  let z := (119 - ms.length % 64) % 64
  ms ++ 128 :: List.replicate z 0 ++ lenBytes (8 * ms.length)

/-- Split a byte list into 64-byte chunks (fuel-driven so the kernel can
reduce it; the fuel `l.length` always suffices). -/
def chunk64Aux : Nat → List Nat → List (List Nat)
  | 0, _ => []
  | _, [] => []
  | fuel + 1, l => l.take 64 :: chunk64Aux fuel (l.drop 64)

/-- Split a byte list into 64-byte chunks. -/
def chunk64 (l : List Nat) : List (List Nat) := chunk64Aux l.length l

/-- Pack bytes into big-endian 32-bit words. -/
def bytesToWords : List Nat → List Nat
  | b0 :: b1 :: b2 :: b3 :: rest =>
      (((b0 * 256 + b1) * 256 + b2) * 256 + b3) :: bytesToWords rest
  | _ => []

/-- Extend the 16 chunk words to the 80-word message schedule. -/
def sha1schedule (ws : List Nat) : Array Nat :=
  (List.range 64).foldl
    (fun w i =>
      w.push (rotl 1 (Nat.xor (Nat.xor (w[i + 13]!) (w[i + 8]!))
        (Nat.xor (w[i + 2]!) (w[i]!)))))
    ws.toArray

/-- One SHA-1 compression round. -/
def sha1round (st : Nat × Nat × Nat × Nat × Nat) (i wi : Nat) :
    Nat × Nat × Nat × Nat × Nat :=
  let (a, b, c, d, e) := st
  let f :=
    if i < 20 then Nat.lor (Nat.land b c) (Nat.land (Nat.xor b 4294967295) d)
    else if i < 40 then Nat.xor (Nat.xor b c) d
    else if i < 60 then Nat.lor (Nat.lor (Nat.land b c) (Nat.land b d)) (Nat.land c d)
    else Nat.xor (Nat.xor b c) d
  let k :=
    if i < 20 then 1518500249
    else if i < 40 then 1859775393
    else if i < 60 then 2400959708
    else 3395469782
  (w32 (rotl 5 a + f + e + k + wi), a, rotl 30 b, c, d)

/-- Process one 64-byte chunk into the running digest state. -/
def sha1chunk (h : Nat × Nat × Nat × Nat × Nat) (bytes : List Nat) :
    Nat × Nat × Nat × Nat × Nat :=
  let w := sha1schedule (bytesToWords bytes)
  let (h0, h1, h2, h3, h4) := h
  let (a, b, c, d, e) :=
    (List.range 80).foldl (fun st i => sha1round st i (w[i]!)) (h0, h1, h2, h3, h4)
  (w32 (h0 + a), w32 (h1 + b), w32 (h2 + c), w32 (h3 + d), w32 (h4 + e))

/-- Lowercase hex rendering of a 32-bit word, 8 digits. -/
def hex8 (n : Nat) : String :=
  String.mk ((List.range 8).map (fun i =>
    "0123456789abcdef".data.getD (Nat.shiftRight n (28 - 4 * i) % 16) '0'))

/-- SHA-1 hex digest of a string, as `crypto.createHash('sha1').digest('hex')`. -/
def sha1hex (s : String) : String :=
  let init := (1732584193, 4023233417, 2562383102, 271733878, 3285377520)
  let (h0, h1, h2, h3, h4) := (chunk64 (sha1pad (strBytes s))).foldl sha1chunk init
  hex8 h0 ++ hex8 h1 ++ hex8 h2 ++ hex8 h3 ++ hex8 h4

/-!
## Data model

The three core tables of `database/schema.sql`:
`context_versions`, `business_state` and `context_changes`.
UUID primary keys are modelled by a per-store counter `nextId` (the
generator of fresh ids); timestamps by `Nat`.
-/

/-- `field_type` tag (`CHECK` constraint of `business_state`). -/
inductive FieldType : Type where
  | text | number | json | array | boolean | date
deriving DecidableEq, Repr

/-- `source` tag (`CHECK` constraint of `business_state`). -/
inductive Source : Type where
  | manual | api_twitter | api_crm | api_webhook | claude_chat
deriving DecidableEq, Repr

/-- `change_type` tag (`CHECK` constraint of `context_changes`). -/
inductive ChangeType : Type where
  | create | update | delete
deriving DecidableEq, Repr

/-- A row of `context_versions`. -/
structure VersionRow : Type where
  id : Nat
  user_id : String
  version_hash : String
  commit_message : String
  created_at : Nat
  is_current : Bool
  parent_version_id : Option Nat
  author : String
  tags : List String
deriving DecidableEq, Repr

/-- A row of `business_state`. -/
structure FieldRow : Type where
  version_id : Nat
  field_name : String
  field_value : JsonValue
  field_type : FieldType
  source : Source
  updated_at : Nat
deriving DecidableEq, Repr

/-- A row of `context_changes` (`old_value`/`new_value` are nullable
columns; `new_value` is always set by the engine, `old_value` may be SQL
`NULL`, modelled as `none`). -/
structure ChangeRow : Type where
  version_id : Nat
  field_name : String
  old_value : Option JsonValue
  new_value : JsonValue
  change_type : ChangeType
  source : Source
  created_at : Nat
deriving DecidableEq, Repr

/-- The store: the three core tables plus the fresh-id generator. -/
structure Store : Type where
  versions : List VersionRow
  fields : List FieldRow
  changes : List ChangeRow
  nextId : Nat
deriving DecidableEq, Repr

/-- The store before any commit. -/
def Store.empty : Store := ⟨[], [], [], 0⟩

/-!
## Store primitives

`.single()` of supabase-js / PostgREST: requesting a singular object
yields the row when exactly one row matches; otherwise the response is an
error with code `PGRST116` ("JSON object requested, multiple (or no) rows
returned") and `data` is null.  Note `PGRST116` covers *both* zero rows
and more than one row.
-/

/-- Result of a supabase query ending in `.single()`. -/
structure SingleResult (α : Type) : Type where
  data : Option α
  error : Option String

/-- PostgREST `.single()`: one row gives data, otherwise error `PGRST116`. -/
def sbSingle {α : Type} (rows : List α) : SingleResult α :=
  match rows with
  | [v] => ⟨some v, none⟩
  | _ => ⟨none, some "PGRST116"⟩

/-- The `BEFORE INSERT OR UPDATE OF is_current` trigger
`enforce_single_current_version`: when the incoming row has
`is_current = true`, clear the flag on every other row of the same user. -/
def enforceSingleCurrentTrigger (versions : List VersionRow) (newRow : VersionRow) :
    List VersionRow :=
  if newRow.is_current then
    versions.map (fun w =>
      if w.user_id == newRow.user_id && w.id != newRow.id && w.is_current then
        { w with is_current := false }
      else w)
  else versions

/-- `INSERT` into `context_versions`: enforces the `UNIQUE (version_hash)`
constraint (a failed insert leaves the table untouched, trigger effects
included) and fires the single-current trigger. -/
def insertVersion (s : Store) (v : VersionRow) : Except String Store :=
  if (s.versions.map (·.version_hash)).contains v.version_hash then
    .error "duplicate key value violates unique constraint on version_hash"
  else
    .ok { s with versions := enforceSingleCurrentTrigger s.versions v ++ [v] }

/-- The `UNIQUE (version_id, field_name)` key of a `business_state` row. -/
def fieldKey (f : FieldRow) : Nat × String := (f.version_id, f.field_name)

/-- `INSERT` of a batch into `business_state`: enforces
`unique_field_per_version`; on violation nothing is written. -/
def insertFields (s : Store) (rows : List FieldRow) : Except String Store :=
  if ((s.fields ++ rows).map fieldKey).Nodup then
    .ok { s with fields := s.fields ++ rows }
  else
    .error "duplicate key value violates unique constraint unique_field_per_version"

/-!
## The Versioned State Engine

`VersionControlEngine` of `src/core/version-control.ts`, method by
method.  The engine's `this.userId` is passed explicitly.  `new Date()`
timestamps and `Math.random()` draws are passed as explicit `ts` / `rand`
arguments (the shallow embedding of the two nondeterministic sources).
Methods that `throw` return `Except String`; `commit` additionally
returns the store it leaves behind, because its writes are *not* wrapped
in a transaction — a throw after the version insert keeps that insert.
-/

namespace VersionControlEngine

/-- The rows `getCurrentVersion`'s query matches:
`user_id = userId AND is_current = true`. -/
def currentRows (s : Store) (userId : String) : List VersionRow :=
  s.versions.filter (fun v => v.user_id == userId && v.is_current)

/-- `getCurrentVersion()`: the `is_current` lookup ended by `.single()`;
an error with code `PGRST116` is treated as "no rows" and yields `null`,
any other error is rethrown. -/
def getCurrentVersion (s : Store) (userId : String) :
    Except String (Option VersionRow) :=
  let r := sbSingle (currentRows s userId)
  match r.error with
  | some e =>
      if e == "PGRST116" then .ok r.data
      else .error ("Failed to get current version: " ++ e)
  | none => .ok r.data

/-- `getVersionById(versionId)`: lookup by `id`, `.single()`, with the
same `PGRST116`-means-null treatment. -/
def getVersionById (s : Store) (versionId : Nat) :
    Except String (Option VersionRow) :=
  let r := sbSingle (s.versions.filter (fun v => v.id == versionId))
  match r.error with
  | some e =>
      if e == "PGRST116" then .ok r.data
      else .error ("Failed to get version: " ++ e)
  | none => .ok r.data

/-- Building a JavaScript `Record` keyed by `field_name` with `forEach`
assignment: key order is first-insertion order, the value for a key is
the last row assigned to it. -/
def objectEntries (rows : List FieldRow) : List FieldRow :=
  rows.foldl
    (fun acc f =>
      if acc.any (fun g => g.field_name == f.field_name) then
        acc.map (fun g => if g.field_name == f.field_name then f else g)
      else acc ++ [f])
    []

/-- `getVersionState(versionId)`: select the version's `business_state`
rows and fold them into a record keyed by `field_name`. -/
def getVersionState (s : Store) (versionId : Nat) : List FieldRow :=
  objectEntries (s.fields.filter (fun f => f.version_id == versionId))

/-- Indexing the state record: `state[fieldName]`. -/
def stateLookup (state : List FieldRow) (fieldName : String) : Option FieldRow :=
  state.find? (fun f => f.field_name == fieldName)

end VersionControlEngine

/-- One entry of `CommitRequest.changes`. -/
structure ChangeInput : Type where
  field_name : String
  field_value : JsonValue
  field_type : FieldType
  source : Source
deriving DecidableEq, Repr

/-- `CommitRequest` of `src/types` (`tags` and `author` optional). -/
structure CommitRequest : Type where
  user_id : String
  commit_message : String
  changes : List ChangeInput
  tags : Option (List String)
  author : Option String
deriving DecidableEq, Repr

namespace VersionControlEngine

/-- The content string hashed by `generateVersionHash`:
`${userId}${commitMessage}${timestamp.toISOString()}${Math.random()}`.
The ISO rendering of the timestamp and the decimal rendering of the
random draw are abstracted to `toString` of the corresponding `Nat`
(both injective renderings). -/
def versionHashContent (userId commitMessage : String) (ts rand : Nat) : String :=
  userId ++ commitMessage ++ toString ts ++ toString rand

/-- `generateVersionHash(userId, commitMessage, timestamp)`: SHA-1 hex
digest of the content string.  Note the content includes a
`Math.random()` draw, here the explicit `rand` argument. -/
def generateVersionHash (userId commitMessage : String) (ts rand : Nat) : String :=
  sha1hex (versionHashContent userId commitMessage ts rand)

/-- Step 3 of `commit`: the new `context_versions` row — fresh id,
the generated hash, `is_current: true`, `parent_version_id` pointing at
the current version (if any), defaults `author: 'system'` and
`tags: []`. -/
def commitNewVersion (s : Store) (req : CommitRequest) (ts rand : Nat)
    (currentVersion : Option VersionRow) : VersionRow :=
  { id := s.nextId
    user_id := req.user_id
    version_hash := generateVersionHash req.user_id req.commit_message ts rand
    commit_message := req.commit_message
    created_at := ts
    is_current := true
    parent_version_id := currentVersion.map (·.id)
    author := req.author.getD "system"
    tags := req.tags.getD [] }

/-- Step 5 of `commit`: the `business_state` rows to insert — one row
per entry of `request.changes` stamped with the commit timestamp,
followed by every field of the parent version not named in `changes`,
copied forward with the same value, type, source and `updated_at`. -/
def commitStateRecords (fields : List FieldRow) (changes : List ChangeInput)
    (ts newId : Nat) (currentVersion : Option VersionRow) : List FieldRow :=
  let stateRecords := changes.map (fun c =>
    { version_id := newId
      field_name := c.field_name
      field_value := c.field_value
      field_type := c.field_type
      source := c.source
      updated_at := ts : FieldRow })
  match currentVersion with
  | some cv =>
    let previousFields := fields.filter (fun f => f.version_id == cv.id)
    let changedFieldNames := changes.map (·.field_name)
    let unchangedFields :=
      (previousFields.filter
        (fun f => !(changedFieldNames.contains f.field_name))).map
        (fun f => { f with version_id := newId })
    stateRecords ++ unchangedFields
  | none => stateRecords

/-- Step 6 of `commit`: the audit rows — one `context_changes` row per
entry of `request.changes`, with
`old_value = previousState[field]?.field_value || null` (so a falsy
parent value is recorded as null) and `change_type` `update` when the
field exists in the parent state, `create` otherwise. -/
def commitChangeRecords (previousState : List FieldRow)
    (changes : List ChangeInput) (ts newId : Nat) : List ChangeRow :=
  changes.map (fun c =>
    { version_id := newId
      field_name := c.field_name
      old_value :=
        match stateLookup previousState c.field_name with
        | some f => if f.field_value.isTruthy then some f.field_value else none
        | none => none
      new_value := c.field_value
      change_type :=
        if (stateLookup previousState c.field_name).isSome then
          ChangeType.update
        else ChangeType.create
      source := c.source
      created_at := ts : ChangeRow })

/-- `commit(request)` — the core operation, step by step as in the
source: 1. read the current version (the parent); 2.–3. generate the
hash and insert the new version row with `is_current = true` (the store
trigger clears the sibling flags); 4. read the parent state; 5. insert
the new field rows (updates plus copy-forward); 6. append the audit
rows.  Errors are rethrown; writes already performed stay (there is no
transaction around steps 3–6). -/
def commit (s : Store) (req : CommitRequest) (ts rand : Nat) :
    Store × Except String VersionRow :=
  match getCurrentVersion s req.user_id with
  | .error e => (s, .error e)
  | .ok currentVersion =>
    let newVersion := commitNewVersion s req ts rand currentVersion
    match insertVersion s newVersion with
    | .error e => (s, .error ("Failed to create version: " ++ e))
    | .ok s1 =>
      let s1 := { s1 with nextId := s.nextId + 1 }
      let previousState :=
        match currentVersion with
        | some cv => getVersionState s1 cv.id
        | none => []
      let stateRecords :=
        commitStateRecords s1.fields req.changes ts newVersion.id currentVersion
      match insertFields s1 stateRecords with
      | .error e => (s1, .error ("Failed to insert state: " ++ e))
      | .ok s2 =>
        let changeRecords :=
          commitChangeRecords previousState req.changes ts newVersion.id
        ({ s2 with changes := s2.changes ++ changeRecords }, .ok newVersion)

/-- A sequence of commits, each folding the store it is given (failed
commits keep whatever they wrote before failing). -/
def commitMany (s : Store) (ops : List (CommitRequest × Nat × Nat)) : Store :=
  ops.foldl (fun st op => (commit st op.1 op.2.1 op.2.2).1) s

end VersionControlEngine

/-- Store sanity: every version id is below the fresh-id counter, every
field row points below it, and the `unique_field_per_version` key set is
duplicate-free — all facts the schema guarantees and `Store.empty`
trivially satisfies. -/
structure Store.WF (s : Store) : Prop where
  version_ids : ∀ v ∈ s.versions, v.id < s.nextId
  field_ids : ∀ f ∈ s.fields, f.version_id < s.nextId
  field_keys : (s.fields.map fieldKey).Nodup

/-- A field entry of the `BusinessState` view returned by
`getStateAtTime` (`{value, type, source, updated_at}`). -/
structure StateFieldView : Type where
  value : JsonValue
  type : FieldType
  source : Source
  updated_at : Nat
deriving DecidableEq, Repr

/-- `BusinessState` of `src/types`: a version identity plus the field
map. -/
structure BusinessState : Type where
  version_id : Nat
  version_hash : String
  commit_message : String
  created_at : Nat
  fields : List (String × StateFieldView)
deriving DecidableEq, Repr

namespace VersionControlEngine

/-- One step of the `ORDER BY created_at DESC LIMIT 1` selection: keep
the row seen so far unless the next row is strictly newer. -/
def pickLatestStep (acc : Option VersionRow) (v : VersionRow) : Option VersionRow :=
  match acc with
  | none => some v
  | some w => if w.created_at < v.created_at then some v else acc

/-- `ORDER BY created_at DESC LIMIT 1` over a row list: a row with the
greatest `created_at` (on ties the database order is unspecified; this
model keeps the earlier row). -/
def pickLatest (rows : List VersionRow) : Option VersionRow :=
  rows.foldl pickLatestStep none

/-- The row produced by
`... .lte('created_at', ts) .order('created_at', desc) .limit(1)`:
an owner's version with the greatest `created_at ≤ ts`. -/
def latestAtOrBefore (s : Store) (userId : String) (ts : Nat) :
    Option VersionRow :=
  pickLatest (s.versions.filter
    (fun v => v.user_id == userId && decide (v.created_at ≤ ts)))

/-- The `BusinessState` response assembled from a version row and its
full field set (the tail of `getStateAtTime`). -/
def mkBusinessState (s : Store) (version : VersionRow) : BusinessState :=
  { version_id := version.id
    version_hash := version.version_hash
    commit_message := version.commit_message
    created_at := version.created_at
    fields := (getVersionState s version.id).map (fun f =>
      (f.field_name, ⟨f.field_value, f.field_type, f.source, f.updated_at⟩)) }

/-- `getStateAtTime(timestamp)`: find the most recent version at or
before the timestamp (`.single()` on the limited query: zero rows give
`PGRST116`, treated as `null`), then return that version's full field
set directly. -/
def getStateAtTime (s : Store) (userId : String) (ts : Nat) :
    Except String (Option BusinessState) :=
  match latestAtOrBefore s userId ts with
  | none => .ok none
  | some version => .ok (some (mkBusinessState s version))

end VersionControlEngine

/-- `change_type` of a diff row (`'added' | 'removed' | 'modified' |
'unchanged'` in the SQL function; the TypeScript `ContextDiff` type lists
only the first three). -/
inductive DiffType : Type where
  | added | removed | modified | unchanged
deriving DecidableEq, Repr

/-- One row returned by `calculate_version_diff` (and passed through by
the engine's `diff`). -/
structure DiffRow : Type where
  field_name : String
  old_value : Option JsonValue
  new_value : Option JsonValue
  change_type : DiffType
deriving DecidableEq, Repr

/-- `SELECT field_value FROM business_state WHERE version_id = v AND
field_name = n` (at most one row by `unique_field_per_version`). -/
def sqlFieldValue (s : Store) (versionId : Nat) (n : String) : Option JsonValue :=
  ((s.fields.filter (fun f => f.version_id == versionId)).find?
      (fun f => f.field_name == n)).map (·.field_value)

/-- Key-preserving duplicate removal (first occurrence wins), used to
realise the `FULL OUTER JOIN ... ON field_name` row set. -/
def firstDedup (l : List String) : List String :=
  l.foldl (fun acc n => if acc.contains n then acc else acc ++ [n]) []

/-- One joined row of `calculate_version_diff` for field name `n`: the
`CASE` classifies it as `added` (absent on the from side, i.e.
`f.field_name IS NULL`), `removed` (absent on the to side), `modified`
(values unequal) or `unchanged` — and the final
`WHERE f.field_value IS DISTINCT FROM t.field_value` removes every row
whose two values are equal (in particular every `unchanged` row). -/
def diffRowFor (s : Store) (fromId toId : Nat) (n : String) : Option DiffRow :=
  let fv := sqlFieldValue s fromId n
  let tv := sqlFieldValue s toId n
  if fv ≠ tv then
    some
      { field_name := n
        old_value := fv
        new_value := tv
        change_type :=
          if fv.isNone then .added
          else if tv.isNone then .removed
          else if fv ≠ tv then .modified
          else .unchanged }
  else none

/-- The join row set of `calculate_version_diff`: the union of the two
versions' field names, each classified by `diffRowFor`. -/
def diffNames (s : Store) (fromId toId : Nat) : List String :=
  firstDedup
    ((s.fields.filter (fun f => f.version_id == fromId)).map (·.field_name)
      ++ (s.fields.filter (fun f => f.version_id == toId)).map (·.field_name))

/-- The stored function `calculate_version_diff(p_version_from,
p_version_to)` of `database/schema.sql`: a full outer join of the two
versions' field sets on `field_name`, each joined row classified by
`diffRowFor` (whose `WHERE` filter drops equal-valued rows). -/
def calculate_version_diff (s : Store) (fromId toId : Nat) : List DiffRow :=
  (diffNames s fromId toId).filterMap (diffRowFor s fromId toId)

/-- `ContextDiff` of `src/types`. -/
structure ContextDiff : Type where
  version_from : Nat
  version_to : Nat
  changes : List DiffRow
  timestamp : Nat
deriving DecidableEq, Repr

namespace VersionControlEngine

/-- `diff(versionFromId, versionToId)`: call the
`calculate_version_diff` RPC, look both versions up (results unused;
a missing id yields `PGRST116`, swallowed as `null`), and wrap the rows. -/
def diff (s : Store) (versionFromId versionToId : Nat) (ts : Nat) :
    Except String ContextDiff :=
  let rows := calculate_version_diff s versionFromId versionToId
  match getVersionById s versionFromId with
  | .error e => .error e
  | .ok _ =>
    match getVersionById s versionToId with
    | .error e => .error e
    | .ok _ =>
      .ok { version_from := versionFromId
            version_to := versionToId
            changes := rows
            timestamp := ts }

/-- The commit message authored by `rollback`:
`Rollback to <short hash>: <reason or the target's message>` (a falsy —
absent or empty — reason falls back to the target's own message). -/
def rollbackMessage (targetVersion : VersionRow) (reason : Option String) : String :=
  let reasonText :=
    match reason with
    | some r => if r != "" then r else targetVersion.commit_message
    | none => targetVersion.commit_message
  "Rollback to " ++ targetVersion.version_hash.take 7 ++ ": " ++ reasonText

/-- `rollback(request)`: read the target version and its full field set,
then author a fresh commit whose `changes` list all the target's fields
(source re-stamped `manual`), with the rollback message,
tags `["rollback"]` and author `"system"`. -/
def rollback (s : Store) (userId : String) (versionId : Nat)
    (reason : Option String) (ts rand : Nat) : Store × Except String VersionRow :=
  match getVersionById s versionId with
  | .error e => (s, .error e)
  | .ok none => (s, .error ("Version " ++ toString versionId ++ " not found"))
  | .ok (some targetVersion) =>
    let targetState := getVersionState s versionId
    let changes := targetState.map (fun f =>
      { field_name := f.field_name
        field_value := f.field_value
        field_type := f.field_type
        source := Source.manual : ChangeInput })
    commit s
      { user_id := userId
        commit_message := rollbackMessage targetVersion reason
        changes := changes
        tags := some ["rollback"]
        author := some "system" }
      ts rand

end VersionControlEngine

/-- The field set of a snapshot as (name, value) pairs — the notion of
"structural equality of field sets" used when two snapshots are
compared. -/
def fieldPairs (rows : List FieldRow) : List (String × JsonValue) :=
  rows.map (fun f => (f.field_name, f.field_value))

/-- The parent state read in step 4 of `commit` (empty when there is no
current version). -/
def prevStateOf (s : Store) (cvOpt : Option VersionRow) : List FieldRow :=
  match cvOpt with
  | some cv => VersionControlEngine.getVersionState s cv.id
  | none => []

/-- Extract the committed version from a `commit` result (a throwaway
default for the error case, used only in concrete evaluations where the
commit is known to succeed). -/
def okVersion (r : Store × Except String VersionRow) : VersionRow :=
  r.2.toOption.getD ⟨0, "", "", "", 0, false, none, "", []⟩

/-- Reading the current state, as the `GET /api/context/current` route
does: `getCurrentVersion` followed by `getVersionState` on the row it
returned (not-found or an error yields nothing). -/
def readCurrentState (s : Store) (userId : String) : Option (List FieldRow) :=
  match VersionControlEngine.getCurrentVersion s userId with
  | .ok (some v) => some (VersionControlEngine.getVersionState s v.id)
  | _ => none

/-!
## Concrete fixtures

Small concrete runs of the engine, used as counterexamples and witness
inputs.
-/

/-- Commit request: field `a := 1`. -/
def exReqA : CommitRequest := ⟨"u", "m1", [⟨"a", .num 1, .number, .manual⟩], none, none⟩

/-- Commit request: field `b := "x"`. -/
def exReqB : CommitRequest := ⟨"u", "m2", [⟨"b", .str "x", .text, .manual⟩], none, none⟩

/-- Commit request: field `a := 2`. -/
def exReqA2 : CommitRequest := ⟨"u", "m3", [⟨"a", .num 2, .number, .manual⟩], none, none⟩

/-- Commit request: field `a := 0` (a falsy JSON value). -/
def exReqZero : CommitRequest := ⟨"u", "z1", [⟨"a", .num 0, .number, .manual⟩], none, none⟩

/-- Commit request: field `a := 5`. -/
def exReqFive : CommitRequest := ⟨"u", "z2", [⟨"a", .num 5, .number, .manual⟩], none, none⟩

/-- Commit request with an empty updates list. -/
def exReqEmpty : CommitRequest := ⟨"u", "e", [], none, none⟩

/-- Commit request with a duplicated field name. -/
def exReqDup : CommitRequest :=
  ⟨"u", "d", [⟨"a", .num 1, .number, .manual⟩, ⟨"a", .num 2, .number, .manual⟩], none, none⟩

/-- The store after committing `{a: 1}` to the empty store. -/
def exStore1 : Store := (VersionControlEngine.commit Store.empty exReqA 1 0).1

/-- The store after then committing `{b: "x"}` — its current snapshot is
`{a: 1, b: "x"}`, version 0 holds `{a: 1}` alone. -/
def exStore2 : Store := (VersionControlEngine.commit exStore1 exReqB 2 1).1

/-- The store after committing `{a: 0}` to the empty store. -/
def exStoreZero : Store := (VersionControlEngine.commit Store.empty exReqZero 1 0).1

/-- Version 0 of `exStore2` (the `{a: 1}` commit, by now superseded). -/
def exV0 : VersionRow := exStore2.versions.headD ⟨0, "", "", "", 0, false, none, "", []⟩

/-- A store holding two `is_current = true` rows for the same owner —
the state invariant I1 forbids, fed to `getCurrentVersion` to observe
its behaviour on it. -/
def exTwoCurrent : Store :=
  ⟨[⟨0, "u", "h0", "m0", 1, true, none, "system", []⟩,
    ⟨1, "u", "h1", "m1", 2, true, none, "system", []⟩], [], [], 2⟩

/-- A single current version for owner `"u"`. -/
def exVcur : VersionRow := ⟨0, "u", "h0", "m", 1, true, none, "system", []⟩

/-- A store whose current snapshot is `{a: 1, b: "x"}`. -/
def exStoreAB : Store :=
  ⟨[exVcur],
   [⟨0, "a", .num 1, .number, .manual, 1⟩, ⟨0, "b", .str "x", .text, .manual, 1⟩],
   [], 1⟩

/-- The version current in `exStoreZero` (the `{a: 0}` commit). -/
def exVZero : VersionRow := okVersion (VersionControlEngine.commit Store.empty exReqZero 1 0)

/-!
## Basic query lemmas
-/

set_option maxRecDepth 4096 in
/-- The SHA-1 model matches the FIPS 180-1 test vector for `"abc"`. -/
theorem sha1hex_abc_vector :
    sha1hex "abc" = "a9993e364706816aba3e25717850c26c9cd0d89d" := by decide

set_option maxRecDepth 4096 in
/-- The SHA-1 model matches the FIPS 180-1 test vector for the empty
message. -/
theorem sha1hex_empty_vector :
    sha1hex "" = "da39a3ee5e6b4b0d3255bfef95601890afd80709" := by decide


namespace VersionControlEngine

/-- `getCurrentVersion` never throws: every outcome of `.single()` on
the current-row query is either the row or the swallowed `PGRST116`. -/
theorem getCurrentVersion_eq_ok (s : Store) (u : String) :
    getCurrentVersion s u = .ok (sbSingle (currentRows s u)).data := by
  rcases h : currentRows s u with _ | ⟨v, _ | ⟨w, tl⟩⟩ <;>
    simp [getCurrentVersion, sbSingle, h]

/-- `getVersionById` never throws either. -/
theorem getVersionById_eq_ok (s : Store) (i : Nat) :
    getVersionById s i =
      .ok (sbSingle (s.versions.filter (fun v => v.id == i))).data := by
  rcases h : s.versions.filter (fun v => v.id == i) with _ | ⟨v, _ | ⟨w, tl⟩⟩ <;>
    simp [getVersionById, sbSingle, h]

/-- The exact-one-row reading of a successful current-version lookup. -/
theorem getCurrentVersion_ok_some_iff (s : Store) (u : String) (cv : VersionRow) :
    getCurrentVersion s u = .ok (some cv) ↔ currentRows s u = [cv] := by
  rw [getCurrentVersion_eq_ok]
  rcases h : currentRows s u with _ | ⟨v, _ | ⟨w, tl⟩⟩ <;> simp [h, sbSingle]

end VersionControlEngine

/-!
## Trigger lemmas

What `enforce_single_current_version` guarantees about the row set after
a version insert.
-/

namespace VersionControlEngine

/-- After inserting a current row whose id is fresh among the owner's
current rows, that owner's current-row set is exactly the new row. -/
theorem currentRows_trigger_self (vs : List VersionRow) (v : VersionRow)
    (hv : v.is_current = true)
    (hids : ∀ w ∈ vs, w.user_id = v.user_id → w.is_current = true → w.id ≠ v.id) :
    (enforceSingleCurrentTrigger vs v ++ [v]).filter
      (fun w => w.user_id == v.user_id && w.is_current) = [v] := by
  rw [List.filter_append]
  have h2 : [v].filter (fun w => w.user_id == v.user_id && w.is_current) = [v] := by
    simp [hv]
  rw [h2]
  have h1 : (enforceSingleCurrentTrigger vs v).filter
      (fun w => w.user_id == v.user_id && w.is_current) = [] := by
    rw [List.filter_eq_nil_iff]
    intro a ha
    simp only [enforceSingleCurrentTrigger, hv, if_true] at ha
    obtain ⟨w, hw, rfl⟩ := List.mem_map.mp ha
    by_cases hc : (w.user_id == v.user_id && w.id != v.id && w.is_current) = true
    · rw [if_pos hc]
      simp
    · rw [if_neg hc]
      cases hcur : w.is_current
      · simp [hcur]
      · cases huser : (w.user_id == v.user_id)
        · simp [huser]
        · exfalso
          apply hc
          have hid := hids w hw (beq_iff_eq.mp huser) hcur
          simp [huser, hcur, hid]
  rw [h1, List.nil_append]

end VersionControlEngine

namespace VersionControlEngine

/-- The trigger never touches rows of other owners: their current-row
sets are unchanged by the insert. -/
theorem currentRows_trigger_other (vs : List VersionRow) (v : VersionRow)
    (u : String) (hu : u ≠ v.user_id) :
    (enforceSingleCurrentTrigger vs v ++ [v]).filter
        (fun w => w.user_id == u && w.is_current)
      = vs.filter (fun w => w.user_id == u && w.is_current) := by
  rw [List.filter_append]
  have hvu : (v.user_id == u) = false := beq_eq_false_iff_ne.mpr (Ne.symm hu)
  have h2 : [v].filter (fun w => w.user_id == u && w.is_current) = [] := by
    simp [List.filter_cons, hvu]
  rw [h2, List.append_nil]
  unfold enforceSingleCurrentTrigger
  by_cases hv : v.is_current = true
  · rw [if_pos hv]
    induction vs with
    | nil => rfl
    | cons w tl ih =>
      rw [List.map_cons]
      by_cases hc : (w.user_id == v.user_id && w.id != v.id && w.is_current) = true
      · rw [if_pos hc]
        have hwu : w.user_id = v.user_id := by
          simp only [Bool.and_eq_true, beq_iff_eq, bne_iff_ne] at hc
          exact hc.1.1
        have hpw : (w.user_id == u) = false := by
          rw [hwu]
          exact beq_eq_false_iff_ne.mpr (Ne.symm hu)
        have hl : (({ w with is_current := false } : VersionRow).user_id == u
            && ({ w with is_current := false } : VersionRow).is_current) = false := by
          simp
        have hr : (w.user_id == u && w.is_current) = false := by
          rw [hpw, Bool.false_and]
        rw [List.filter_cons, List.filter_cons, hl, hr,
          if_neg Bool.false_ne_true, if_neg Bool.false_ne_true]
        exact ih
      · rw [if_neg hc, List.filter_cons, List.filter_cons, ih]
  · rw [if_neg hv]

/-- Every current row of the inserted row's owner is flipped to
superseded by the trigger (provided its id differs from the new id). -/
theorem trigger_flips (vs : List VersionRow) (v : VersionRow)
    (hv : v.is_current = true) :
    ∀ w ∈ vs, w.user_id = v.user_id → w.is_current = true → w.id ≠ v.id →
      { w with is_current := false } ∈ enforceSingleCurrentTrigger vs v ++ [v] := by
  intro w hw hwu hwc hwid
  apply List.mem_append_left
  simp only [enforceSingleCurrentTrigger, hv, if_true]
  refine List.mem_map.mpr ⟨w, hw, ?_⟩
  have hc : (w.user_id == v.user_id && w.id != v.id && w.is_current) = true := by
    simp [hwu, hwc, hwid]
  rw [if_pos hc]

/-- The trigger preserves the owner column of every row. -/
theorem trigger_map_user (vs : List VersionRow) (v : VersionRow) :
    (enforceSingleCurrentTrigger vs v).map (·.user_id) = vs.map (·.user_id) := by
  unfold enforceSingleCurrentTrigger
  by_cases hv : v.is_current = true
  · rw [if_pos hv, List.map_map]
    apply List.map_congr_left
    intro w _
    show (if (w.user_id == v.user_id && w.id != v.id && w.is_current) = true
      then { w with is_current := false } else w).user_id = w.user_id
    by_cases hc : (w.user_id == v.user_id && w.id != v.id && w.is_current) = true
    · rw [if_pos hc]
    · rw [if_neg hc]
  · rw [if_neg hv]

/-- The trigger preserves the id column of every row. -/
theorem trigger_map_id (vs : List VersionRow) (v : VersionRow) :
    (enforceSingleCurrentTrigger vs v).map (·.id) = vs.map (·.id) := by
  unfold enforceSingleCurrentTrigger
  by_cases hv : v.is_current = true
  · rw [if_pos hv, List.map_map]
    apply List.map_congr_left
    intro w _
    show (if (w.user_id == v.user_id && w.id != v.id && w.is_current) = true
      then { w with is_current := false } else w).id = w.id
    by_cases hc : (w.user_id == v.user_id && w.id != v.id && w.is_current) = true
    · rw [if_pos hc]
    · rw [if_neg hc]
  · rw [if_neg hv]

end VersionControlEngine

namespace VersionControlEngine

/-- A version insert with a fresh hash succeeds and appends the row
after firing the single-current trigger. -/
theorem insertVersion_ok (s : Store) (v : VersionRow)
    (h : ((s.versions.map (·.version_hash)).contains v.version_hash) = false) :
    insertVersion s v
      = .ok { s with versions := enforceSingleCurrentTrigger s.versions v ++ [v] } := by
  unfold insertVersion
  rw [h, if_neg Bool.false_ne_true]

/-- A field insert whose combined key set is duplicate-free succeeds and
appends the rows. -/
theorem insertFields_ok (s : Store) (rows : List FieldRow)
    (h : ((s.fields ++ rows).map fieldKey).Nodup) :
    insertFields s rows = .ok { s with fields := s.fields ++ rows } := by
  unfold insertFields
  rw [if_pos h]

/-- Closed form of a fully successful `commit`: the version row is
appended (through the trigger), the field rows and the audit rows are
appended, and the id counter advances. -/
theorem commit_eq_ok (s : Store) (req : CommitRequest) (ts rand : Nat)
    (cvOpt : Option VersionRow)
    (hcur : getCurrentVersion s req.user_id = .ok cvOpt)
    (hhash : ((s.versions.map (·.version_hash)).contains
      (generateVersionHash req.user_id req.commit_message ts rand)) = false)
    (hkeys : ((s.fields ++ commitStateRecords s.fields req.changes ts s.nextId cvOpt).map
      fieldKey).Nodup) :
    commit s req ts rand =
      (⟨enforceSingleCurrentTrigger s.versions (commitNewVersion s req ts rand cvOpt)
          ++ [commitNewVersion s req ts rand cvOpt],
        s.fields ++ commitStateRecords s.fields req.changes ts s.nextId cvOpt,
        s.changes ++ commitChangeRecords (prevStateOf s cvOpt) req.changes ts s.nextId,
        s.nextId + 1⟩,
       .ok (commitNewVersion s req ts rand cvOpt)) := by
  simp only [commit, hcur,
    insertVersion_ok s (commitNewVersion s req ts rand cvOpt) hhash]
  rw [insertFields_ok
    ⟨enforceSingleCurrentTrigger s.versions (commitNewVersion s req ts rand cvOpt)
        ++ [commitNewVersion s req ts rand cvOpt],
      s.fields, s.changes, s.nextId + 1⟩
    (commitStateRecords s.fields req.changes ts
      (commitNewVersion s req ts rand cvOpt).id cvOpt)
    hkeys]
  rfl

end VersionControlEngine
namespace VersionControlEngine

/-- A version insert whose hash already exists fails and writes
nothing. -/
theorem insertVersion_err (s : Store) (v : VersionRow)
    (h : ((s.versions.map (·.version_hash)).contains v.version_hash) = true) :
    insertVersion s v
      = .error "duplicate key value violates unique constraint on version_hash" := by
  unfold insertVersion
  rw [h, if_pos rfl]

/-- Closed form of a `commit` that dies at the version insert (hash
collision): the store is untouched. -/
theorem commit_eq_hashErr (s : Store) (req : CommitRequest) (ts rand : Nat)
    (cvOpt : Option VersionRow)
    (hcur : getCurrentVersion s req.user_id = .ok cvOpt)
    (hhash : ((s.versions.map (·.version_hash)).contains
      (generateVersionHash req.user_id req.commit_message ts rand)) = true) :
    commit s req ts rand =
      (s, .error ("Failed to create version: "
        ++ "duplicate key value violates unique constraint on version_hash")) := by
  simp only [commit, hcur,
    insertVersion_err s (commitNewVersion s req ts rand cvOpt) hhash]

/-- A field insert with a duplicated key fails and writes nothing. -/
theorem insertFields_err (s : Store) (rows : List FieldRow)
    (h : ¬ ((s.fields ++ rows).map fieldKey).Nodup) :
    insertFields s rows
      = .error "duplicate key value violates unique constraint unique_field_per_version" := by
  unfold insertFields
  rw [if_neg h]

/-- Closed form of a `commit` that dies at the field insert (duplicate
field key): the version row is already in, nothing else is. -/
theorem commit_eq_fieldsErr (s : Store) (req : CommitRequest) (ts rand : Nat)
    (cvOpt : Option VersionRow)
    (hcur : getCurrentVersion s req.user_id = .ok cvOpt)
    (hhash : ((s.versions.map (·.version_hash)).contains
      (generateVersionHash req.user_id req.commit_message ts rand)) = false)
    (hkeys : ¬ ((s.fields ++ commitStateRecords s.fields req.changes ts s.nextId cvOpt).map
      fieldKey).Nodup) :
    commit s req ts rand =
      (⟨enforceSingleCurrentTrigger s.versions (commitNewVersion s req ts rand cvOpt)
          ++ [commitNewVersion s req ts rand cvOpt],
        s.fields, s.changes, s.nextId + 1⟩,
       .error ("Failed to insert state: "
        ++ "duplicate key value violates unique constraint unique_field_per_version")) := by
  simp only [commit, hcur,
    insertVersion_ok s (commitNewVersion s req ts rand cvOpt) hhash]
  rw [insertFields_err
    ⟨enforceSingleCurrentTrigger s.versions (commitNewVersion s req ts rand cvOpt)
        ++ [commitNewVersion s req ts rand cvOpt],
      s.fields, s.changes, s.nextId + 1⟩
    (commitStateRecords s.fields req.changes ts
      (commitNewVersion s req ts rand cvOpt).id cvOpt)
    hkeys]

/-- Every field row `commit` writes carries the new version's id. -/
theorem commitStateRecords_version_id (flds : List FieldRow)
    (chs : List ChangeInput) (ts newId : Nat) (cvOpt : Option VersionRow) :
    ∀ f ∈ commitStateRecords flds chs ts newId cvOpt, f.version_id = newId := by
  intro f hf
  unfold commitStateRecords at hf
  cases cvOpt with
  | none =>
    obtain ⟨c, _, rfl⟩ := List.mem_map.mp hf
    rfl
  | some cv =>
    rcases List.mem_append.mp hf with h | h
    · obtain ⟨c, _, rfl⟩ := List.mem_map.mp h
      rfl
    · obtain ⟨g, _, rfl⟩ := List.mem_map.mp h
      rfl

end VersionControlEngine
/-- The empty store is well-formed. -/
theorem Store.WF.empty : Store.empty.WF := by
  constructor <;> simp [Store.empty]

namespace VersionControlEngine

/-- Rows of the trigger output keep ids from the input rows. -/
theorem trigger_mem_id (vs : List VersionRow) (v : VersionRow) (w : VersionRow)
    (hw : w ∈ enforceSingleCurrentTrigger vs v) : ∃ w0 ∈ vs, w0.id = w.id := by
  have : w.id ∈ (enforceSingleCurrentTrigger vs v).map (·.id) :=
    List.mem_map.mpr ⟨w, hw, rfl⟩
  rw [trigger_map_id] at this
  obtain ⟨w0, h0, h1⟩ := List.mem_map.mp this
  exact ⟨w0, h0, h1⟩

/-- `commit` preserves store well-formedness, on every exit path. -/
theorem WF_commit (s : Store) (req : CommitRequest) (ts rand : Nat)
    (h : s.WF) : (commit s req ts rand).1.WF := by
  have hcur := getCurrentVersion_eq_ok s req.user_id
  set cvOpt := (sbSingle (currentRows s req.user_id)).data with hcv
  have hver : ∀ w ∈ enforceSingleCurrentTrigger s.versions
        (commitNewVersion s req ts rand cvOpt)
      ++ [commitNewVersion s req ts rand cvOpt], w.id < s.nextId + 1 := by
    intro w hw
    rcases List.mem_append.mp hw with hw | hw
    · obtain ⟨w0, h0, h1⟩ := trigger_mem_id _ _ _ hw
      exact h1 ▸ Nat.lt_succ_of_lt (h.version_ids w0 h0)
    · rw [List.mem_singleton.mp hw]
      exact Nat.lt_succ_self _
  by_cases hh : ((s.versions.map (·.version_hash)).contains
      (generateVersionHash req.user_id req.commit_message ts rand)) = true
  · rw [commit_eq_hashErr s req ts rand cvOpt hcur hh]
    exact h
  · rw [Bool.not_eq_true] at hh
    by_cases hk : ((s.fields
        ++ commitStateRecords s.fields req.changes ts s.nextId cvOpt).map fieldKey).Nodup
    · rw [commit_eq_ok s req ts rand cvOpt hcur hh hk]
      refine ⟨hver, ?_, hk⟩
      intro f hf
      rcases List.mem_append.mp hf with hf | hf
      · exact Nat.lt_succ_of_lt (h.field_ids f hf)
      · rw [commitStateRecords_version_id _ _ _ _ _ f hf]
        exact Nat.lt_succ_self _
    · rw [commit_eq_fieldsErr s req ts rand cvOpt hcur hh hk]
      refine ⟨hver, ?_, h.field_keys⟩
      intro f hf
      exact Nat.lt_succ_of_lt (h.field_ids f hf)

end VersionControlEngine
namespace VersionControlEngine

/-- Owner membership over the trigger-plus-insert row set. -/
theorem trigger_append_any_user (vs : List VersionRow) (v : VersionRow) (u : String) :
    ((enforceSingleCurrentTrigger vs v ++ [v]).any (fun w => w.user_id == u))
      = (vs.any (fun w => w.user_id == u) || (v.user_id == u)) := by
  rw [List.any_append]
  have h1 : (enforceSingleCurrentTrigger vs v).any (fun w => w.user_id == u)
      = vs.any (fun w => w.user_id == u) := by
    unfold enforceSingleCurrentTrigger
    by_cases hv : v.is_current = true
    · rw [if_pos hv]
      induction vs with
      | nil => rfl
      | cons w tl ih =>
        rw [List.map_cons, List.any_cons, List.any_cons, ih]
        congr 1
        by_cases hc : (w.user_id == v.user_id && w.id != v.id && w.is_current) = true
        · rw [if_pos hc]
        · rw [if_neg hc]
    · rw [if_neg hv]
  rw [h1]
  simp

/-- The per-owner current count equals "has this owner any version at
all"; `commit` preserves this on every exit path. -/
theorem commit_current_count (s : Store) (req : CommitRequest) (ts rand : Nat)
    (hWF : s.WF)
    (hcount : ∀ u, (currentRows s u).length
      = if s.versions.any (fun v => v.user_id == u) then 1 else 0) :
    ∀ u, (currentRows (commit s req ts rand).1 u).length
      = if (commit s req ts rand).1.versions.any (fun v => v.user_id == u)
        then 1 else 0 := by
  have hcur := getCurrentVersion_eq_ok s req.user_id
  set cvOpt := (sbSingle (currentRows s req.user_id)).data with hcv
  by_cases hh : ((s.versions.map (·.version_hash)).contains
      (generateVersionHash req.user_id req.commit_message ts rand)) = true
  · rw [commit_eq_hashErr s req ts rand cvOpt hcur hh]
    exact hcount
  · rw [Bool.not_eq_true] at hh
    have hversions : (commit s req ts rand).1.versions
        = enforceSingleCurrentTrigger s.versions (commitNewVersion s req ts rand cvOpt)
          ++ [commitNewVersion s req ts rand cvOpt] := by
      by_cases hk : ((s.fields
          ++ commitStateRecords s.fields req.changes ts s.nextId cvOpt).map fieldKey).Nodup
      · rw [commit_eq_ok s req ts rand cvOpt hcur hh hk]
      · rw [commit_eq_fieldsErr s req ts rand cvOpt hcur hh hk]
    intro u
    unfold currentRows
    rw [hversions]
    by_cases hu : u = req.user_id
    · subst hu
      rw [show (fun (w : VersionRow) => w.user_id == req.user_id && w.is_current)
          = (fun w => w.user_id == (commitNewVersion s req ts rand cvOpt).user_id
            && w.is_current) from rfl]
      rw [currentRows_trigger_self s.versions (commitNewVersion s req ts rand cvOpt)
        rfl (fun w hw _ hc => Nat.ne_of_lt (hWF.version_ids w hw))]
      have hmem : (enforceSingleCurrentTrigger s.versions
            (commitNewVersion s req ts rand cvOpt)
          ++ [commitNewVersion s req ts rand cvOpt]).any
            (fun w => w.user_id == req.user_id) = true := by
        refine List.any_eq_true.mpr ⟨commitNewVersion s req ts rand cvOpt, ?_, ?_⟩
        · exact List.mem_append_right _ (List.mem_singleton_self _)
        · exact beq_self_eq_true _
      rw [hmem, if_pos rfl]
      rfl
    · rw [currentRows_trigger_other s.versions (commitNewVersion s req ts rand cvOpt)
        u hu]
      rw [trigger_append_any_user]
      have hne : ((commitNewVersion s req ts rand cvOpt).user_id == u) = false :=
        beq_eq_false_iff_ne.mpr (Ne.symm hu)
      rw [hne, Bool.or_false]
      exact hcount u

end VersionControlEngine
namespace VersionControlEngine

/-- The joint invariant (well-formedness plus the per-owner current
count formula) holds along any commit sequence. -/
theorem commitMany_invariant (ops : List (CommitRequest × Nat × Nat)) (s : Store)
    (h : s.WF ∧ ∀ u, (currentRows s u).length
      = if s.versions.any (fun v => v.user_id == u) then 1 else 0) :
    (commitMany s ops).WF ∧ ∀ u, (currentRows (commitMany s ops) u).length
      = if (commitMany s ops).versions.any (fun v => v.user_id == u)
        then 1 else 0 := by
  induction ops generalizing s with
  | nil => exact h
  | cons op rest ih =>
    show ((commitMany (commit s op.1 op.2.1 op.2.2).1 rest).WF ∧ _)
    exact ih _ ⟨WF_commit s op.1 op.2.1 op.2.2 h.1,
      commit_current_count s op.1 op.2.1 op.2.2 h.1 h.2⟩

end VersionControlEngine
/-!
## Claim theorems
-/

namespace VersionControlEngine

/-- C1.  Single-current invariant (I1): for every owner, after every
sequence of commit operations starting from the empty store, the number
of versions with `is_current = true` is one if the owner has any version
and zero otherwise — in particular at most one, and zero before the
first commit.  Moreover every successful commit leaves exactly the newly
created version current for its owner and flips every previously current
version of that owner to superseded. -/
theorem single_current_invariant (ops : List (CommitRequest × Nat × Nat)) (u : String) :
    (currentRows (commitMany Store.empty ops) u).length
        = (if (commitMany Store.empty ops).versions.any
            (fun v => v.user_id == u) then 1 else 0)
    ∧ (currentRows (commitMany Store.empty ops) u).length ≤ 1
    ∧ (currentRows Store.empty u).length = 0
    ∧ ∀ s req ts rand s' v, Store.WF s →
        commit s req ts rand = (s', Except.ok v) →
        currentRows s' req.user_id = [v]
        ∧ ∀ w ∈ s.versions, w.user_id = req.user_id → w.is_current = true →
            { w with is_current := false } ∈ s'.versions := by
  have hbase : Store.empty.WF ∧ ∀ u', (currentRows Store.empty u').length
      = if Store.empty.versions.any (fun v => v.user_id == u') then 1 else 0 :=
    ⟨Store.WF.empty, fun _ => rfl⟩
  have hinv := commitMany_invariant ops Store.empty hbase
  refine ⟨hinv.2 u, ?_, rfl, ?_⟩
  · rw [hinv.2 u]
    split <;> simp
  · intro s req ts rand s' v hWF hcommit
    have hcur := getCurrentVersion_eq_ok s req.user_id
    set cvOpt := (sbSingle (currentRows s req.user_id)).data with hcv
    by_cases hh : ((s.versions.map (·.version_hash)).contains
        (generateVersionHash req.user_id req.commit_message
          ts rand)) = true
    · rw [commit_eq_hashErr s req ts rand cvOpt hcur hh] at hcommit
      simp at hcommit
    · rw [Bool.not_eq_true] at hh
      by_cases hk : ((s.fields ++ commitStateRecords s.fields
          req.changes ts s.nextId cvOpt).map fieldKey).Nodup
      · rw [commit_eq_ok s req ts rand cvOpt hcur hh hk] at hcommit
        injection hcommit with h1 h2
        injection h2 with h2
        subst h1
        subst h2
        constructor
        · show List.filter _ _ = _
          rw [show (fun (w : VersionRow) => w.user_id == req.user_id && w.is_current)
              = (fun w => w.user_id
                  == (commitNewVersion s req ts rand cvOpt).user_id
                && w.is_current) from rfl]
          exact currentRows_trigger_self s.versions
            (commitNewVersion s req ts rand cvOpt) rfl
            (fun w hw _ _ => Nat.ne_of_lt (hWF.version_ids w hw))
        · intro w hw hwu hwc
          exact trigger_flips s.versions
            (commitNewVersion s req ts rand cvOpt) rfl w hw hwu hwc
            (Nat.ne_of_lt (hWF.version_ids w hw))
      · rw [commit_eq_fieldsErr s req ts rand cvOpt hcur hh hk]
          at hcommit
        simp at hcommit

end VersionControlEngine
namespace VersionControlEngine

set_option maxRecDepth 8192 in
/-- Witness for C1 at a concrete two-commit run: after
`{a: 1}` then `{b: "x"}` the owner `"u"` has at most one current
version, and the second commit's result is exactly the current row. -/
theorem single_current_invariant_witness :
    (currentRows (commitMany Store.empty [(exReqA, 1, 0), (exReqB, 2, 1)]) "u").length ≤ 1
    ∧ currentRows (commit exStore1 exReqB 2 1).1 "u"
        = [okVersion (commit exStore1 exReqB 2 1)] :=
  ⟨(single_current_invariant [(exReqA, 1, 0), (exReqB, 2, 1)] "u").2.1,
   ((single_current_invariant [] "u").2.2.2 exStore1 exReqB 2 1
      (commit exStore1 exReqB 2 1).1 (okVersion (commit exStore1 exReqB 2 1))
      ⟨by decide, by decide, by decide⟩ rfl).1⟩

end VersionControlEngine
namespace VersionControlEngine

/-- Building the record keyed by `field_name` over duplicate-free names
changes nothing. -/
theorem objectEntries_eq_self (rows : List FieldRow)
    (h : (rows.map (·.field_name)).Nodup) : objectEntries rows = rows := by
  suffices haux : ∀ (rs : List FieldRow) (acc : List FieldRow),
      (((acc ++ rs).map (·.field_name)).Nodup) →
      rs.foldl
        (fun acc f =>
          if acc.any (fun g => g.field_name == f.field_name) then
            acc.map (fun g => if g.field_name == f.field_name then f else g)
          else acc ++ [f]) acc = acc ++ rs by
    have := haux rows [] (by simpa using h)
    rw [List.nil_append] at this
    exact this
  intro rs
  induction rs with
  | nil => intro acc _; simp
  | cons f tl ih =>
    intro acc hacc
    have hnotin : f.field_name ∉ acc.map (·.field_name) := by
      rw [List.map_append] at hacc
      have hdisj := (List.nodup_append.mp hacc).2.2
      intro hmem
      exact hdisj hmem (by simp)
    have hany : acc.any (fun g => g.field_name == f.field_name) = false := by
      rw [List.any_eq_false]
      intro g hg
      simp only [beq_iff_eq]
      intro heq
      exact hnotin (List.mem_map.mpr ⟨g, hg, heq⟩)
    rw [List.foldl_cons, hany]
    simp only [Bool.false_eq_true, if_false]
    have := ih (acc ++ [f]) (by rw [List.append_assoc]; exact hacc)
    rw [List.append_assoc] at this
    exact this

end VersionControlEngine
namespace VersionControlEngine

/-- Fresh-id rows appended to a well-formed store keep the field-key set
duplicate-free. -/
theorem hkeys_of_fresh (s : Store) (hWF : s.WF) (rows : List FieldRow)
    (hrow_id : ∀ f ∈ rows, f.version_id = s.nextId)
    (hnames : (rows.map (·.field_name)).Nodup) :
    ((s.fields ++ rows).map fieldKey).Nodup := by
  rw [List.map_append, List.nodup_append]
  refine ⟨hWF.field_keys, ?_, ?_⟩
  · have hsnd : rows.map (·.field_name) = (rows.map fieldKey).map Prod.snd := by
      rw [List.map_map]; rfl
    rw [hsnd] at hnames
    exact hnames.of_map
  · intro k hk1 hk2
    obtain ⟨f, hf, rfl⟩ := List.mem_map.mp hk1
    obtain ⟨g, hg, hkey⟩ := List.mem_map.mp hk2
    have h1 : f.version_id < s.nextId := hWF.field_ids f hf
    have h2 : g.version_id = s.nextId := hrow_id g hg
    have h3 : g.version_id = f.version_id := congrArg Prod.fst hkey
    omega

/-- Filtering the appended table by the fresh id returns exactly the new
rows. -/
theorem filter_fields_fresh (s : Store) (hWF : s.WF) (rows : List FieldRow)
    (hrow_id : ∀ f ∈ rows, f.version_id = s.nextId) :
    (s.fields ++ rows).filter (fun f => f.version_id == s.nextId) = rows := by
  rw [List.filter_append]
  have h1 : s.fields.filter (fun f => f.version_id == s.nextId) = [] := by
    rw [List.filter_eq_nil_iff]
    intro f hf
    simp only [beq_iff_eq]
    exact Nat.ne_of_lt (hWF.field_ids f hf)
  have h2 : rows.filter (fun f => f.version_id == s.nextId) = rows := by
    rw [List.filter_eq_self]
    intro f hf
    simp only [beq_iff_eq]
    exact hrow_id f hf
  rw [h1, h2, List.nil_append]

/-- The full snapshot read of a freshly committed version is exactly the
rows the commit wrote (given duplicate-free field names). -/
theorem getVersionState_fresh (s : Store) (hWF : s.WF) (rows : List FieldRow)
    (vs : List VersionRow) (cs : List ChangeRow) (n : Nat)
    (hrow_id : ∀ f ∈ rows, f.version_id = s.nextId)
    (hnames : (rows.map (·.field_name)).Nodup) :
    getVersionState ⟨vs, s.fields ++ rows, cs, n⟩ s.nextId = rows := by
  unfold getVersionState
  rw [show (⟨vs, s.fields ++ rows, cs, n⟩ : Store).fields = s.fields ++ rows from rfl]
  rw [filter_fields_fresh s hWF rows hrow_id]
  exact objectEntries_eq_self rows hnames

end VersionControlEngine
namespace VersionControlEngine

/-- C2.  Copy-forward correctness: when the current snapshot is
`{a: 1, b: "x"}`, committing the single update `{a: 2}` yields a new
current version whose full field set is exactly the updated `a` row
(value 2, stamped with the commit time) followed by the parent's `b` row
copied forward unchanged — same value, type, source and `updated_at`,
only the version id rebound — and appends exactly one Change row
(`a`, `update`, old value 1, new value 2) and none for `b`. -/
theorem copy_forward_correct (s : Store) (req : CommitRequest) (ts rand : Nat)
    (cv : VersionRow) (fa fb : FieldRow) (c : ChangeInput)
    (hWF : s.WF)
    (hcur : getCurrentVersion s req.user_id = .ok (some cv))
    (hrows : s.fields.filter (fun f => f.version_id == cv.id) = [fa, fb])
    (hfa : fa.field_name = "a") (hfav : fa.field_value = .num 1)
    (hfb : fb.field_name = "b") (hfbv : fb.field_value = .str "x")
    (hreq : req.changes = [c])
    (hca : c.field_name = "a") (hcv2 : c.field_value = .num 2)
    (hhash : ((s.versions.map (·.version_hash)).contains
      (generateVersionHash req.user_id req.commit_message ts rand)) = false) :
    commit s req ts rand =
      (⟨enforceSingleCurrentTrigger s.versions (commitNewVersion s req ts rand (some cv))
          ++ [commitNewVersion s req ts rand (some cv)],
        s.fields ++ [⟨s.nextId, c.field_name, c.field_value, c.field_type, c.source, ts⟩,
          { fb with version_id := s.nextId }],
        s.changes ++ [⟨s.nextId, c.field_name, some (.num 1), c.field_value,
          ChangeType.update, c.source, ts⟩],
        s.nextId + 1⟩,
       .ok (commitNewVersion s req ts rand (some cv)))
    ∧ getVersionState (commit s req ts rand).1 s.nextId =
        [⟨s.nextId, c.field_name, c.field_value, c.field_type, c.source, ts⟩,
         { fb with version_id := s.nextId }]
    ∧ getCurrentVersion (commit s req ts rand).1 req.user_id =
        .ok (some (commitNewVersion s req ts rand (some cv))) := by
  have hrecords : commitStateRecords s.fields req.changes ts s.nextId (some cv)
      = [⟨s.nextId, c.field_name, c.field_value, c.field_type, c.source, ts⟩,
         { fb with version_id := s.nextId }] := by
    unfold commitStateRecords
    rw [hreq]
    dsimp only
    rw [hrows]
    simp [List.filter_cons, hfa, hfb, hca]
  have hids : ∀ f ∈ [(⟨s.nextId, c.field_name, c.field_value, c.field_type,
        c.source, ts⟩ : FieldRow), { fb with version_id := s.nextId }],
      f.version_id = s.nextId := by
    intro f hf
    rcases List.mem_cons.mp hf with rfl | hf
    · rfl
    · rw [List.mem_singleton.mp hf]
  have hnames : ([(⟨s.nextId, c.field_name, c.field_value, c.field_type,
        c.source, ts⟩ : FieldRow), { fb with version_id := s.nextId }].map
      (·.field_name)).Nodup := by
    simp [hca, hfb]
  have hkeys : ((s.fields ++ commitStateRecords s.fields req.changes ts s.nextId
      (some cv)).map fieldKey).Nodup := by
    rw [hrecords]
    exact hkeys_of_fresh s hWF _ hids hnames
  have hprev : prevStateOf s (some cv) = [fa, fb] := by
    unfold prevStateOf getVersionState
    dsimp only
    rw [hrows]
    exact objectEntries_eq_self _ (by simp [hfa, hfb])
  have hchanges : commitChangeRecords (prevStateOf s (some cv)) req.changes ts s.nextId
      = [⟨s.nextId, c.field_name, some (.num 1), c.field_value,
          ChangeType.update, c.source, ts⟩] := by
    rw [hprev]
    unfold commitChangeRecords stateLookup
    rw [hreq]
    simp [List.find?_cons, hfa, hca, hfav, JsonValue.isTruthy]
  have hmain : commit s req ts rand =
      (⟨enforceSingleCurrentTrigger s.versions (commitNewVersion s req ts rand (some cv))
          ++ [commitNewVersion s req ts rand (some cv)],
        s.fields ++ [⟨s.nextId, c.field_name, c.field_value, c.field_type, c.source, ts⟩,
          { fb with version_id := s.nextId }],
        s.changes ++ [⟨s.nextId, c.field_name, some (.num 1), c.field_value,
          ChangeType.update, c.source, ts⟩],
        s.nextId + 1⟩,
       .ok (commitNewVersion s req ts rand (some cv))) := by
    rw [commit_eq_ok s req ts rand (some cv) hcur hhash hkeys, hrecords, hchanges]
  refine ⟨hmain, ?_, ?_⟩
  · rw [hmain]
    exact getVersionState_fresh s hWF _ _ _ _ hids hnames
  · rw [hmain]
    rw [getCurrentVersion_ok_some_iff]
    show List.filter _ _ = _
    rw [show (fun (w : VersionRow) => w.user_id == req.user_id && w.is_current)
        = (fun w => w.user_id
            == (commitNewVersion s req ts rand (some cv)).user_id
          && w.is_current) from rfl]
    exact currentRows_trigger_self s.versions
      (commitNewVersion s req ts rand (some cv)) rfl
      (fun w hw _ _ => Nat.ne_of_lt (hWF.version_ids w hw))

end VersionControlEngine
namespace VersionControlEngine

set_option maxRecDepth 8192 in
/-- Witness for C2: committing `{a: 2}` on the concrete store with
current snapshot `{a: 1, b: "x"}` produces the snapshot
`{a: 2 (restamped), b: "x" (copied, untouched)}`. -/
theorem copy_forward_correct_witness :
    getVersionState (commit exStoreAB exReqA2 5 0).1 exStoreAB.nextId
      = [⟨exStoreAB.nextId, "a", .num 2, .number, .manual, 5⟩,
         ⟨exStoreAB.nextId, "b", .str "x", .text, .manual, 1⟩] :=
  (copy_forward_correct exStoreAB exReqA2 5 0 exVcur
    ⟨0, "a", .num 1, .number, .manual, 1⟩ ⟨0, "b", .str "x", .text, .manual, 1⟩
    ⟨"a", .num 2, .number, .manual⟩
    ⟨by decide, by decide, by decide⟩ rfl rfl rfl rfl rfl rfl rfl rfl rfl
    (by decide)).2.1

end VersionControlEngine
namespace VersionControlEngine

/-- Within one version, field names are duplicate-free (from the
`unique_field_per_version` key set). -/
theorem names_nodup_of_WF (s : Store) (hWF : s.WF) (vid : Nat) :
    ((s.fields.filter (fun f => f.version_id == vid)).map (·.field_name)).Nodup := by
  have hsub : ((s.fields.filter (fun f => f.version_id == vid)).map fieldKey).Nodup :=
    hWF.field_keys.sublist ((s.fields.filter_sublist).map fieldKey)
  refine List.Nodup.map_on ?_ hsub.of_map
  intro x hx y hy hxy
  have hxv : x.version_id = vid := by simpa using (List.mem_filter.mp hx).2
  have hyv : y.version_id = vid := by simpa using (List.mem_filter.mp hy).2
  have hk : fieldKey x = fieldKey y := by
    unfold fieldKey
    rw [hxv, hyv, hxy]
  exact List.inj_on_of_nodup_map hsub hx hy hk

end VersionControlEngine
namespace VersionControlEngine

/-- C3 (amended).  Rollback content restoration: rolling back to a
version `tv` authors a fresh commit (new id, new current flag) whose
field set carries exactly `tv`'s field names and values — provided every
field of the pre-rollback current snapshot also occurs in `tv` (the
copy-forward step of `commit` would otherwise carry the extra current
fields into the result, making its field set a strict superset of
`tv`'s). -/
theorem rollback_restores_target_fields (s : Store) (u : String) (vid : Nat)
    (reason : Option String) (ts rand : Nat) (tv : VersionRow)
    (cvOpt : Option VersionRow)
    (hWF : s.WF)
    (htv : s.versions.filter (fun v => v.id == vid) = [tv])
    (hcur : getCurrentVersion s u = .ok cvOpt)
    (hsub : ∀ cv, cvOpt = some cv → ∀ f ∈ s.fields, f.version_id = cv.id →
      ∃ g ∈ s.fields, g.version_id = vid ∧ g.field_name = f.field_name)
    (hhash : ((s.versions.map (·.version_hash)).contains
      (generateVersionHash u (rollbackMessage tv reason) ts rand)) = false) :
    ∃ s' v', rollback s u vid reason ts rand = (s', .ok v')
      ∧ v'.id ≠ tv.id
      ∧ getCurrentVersion s' u = .ok (some v')
      ∧ fieldPairs (getVersionState s' v'.id) = fieldPairs (getVersionState s vid) := by
  have hid : getVersionById s vid = .ok (some tv) := by
    rw [getVersionById_eq_ok, htv]
    rfl
  have htgt : getVersionState s vid
      = s.fields.filter (fun f => f.version_id == vid) :=
    objectEntries_eq_self _ (names_nodup_of_WF s hWF vid)
  set tgtRows := s.fields.filter (fun f => f.version_id == vid) with htr
  set req : CommitRequest :=
    ⟨u, rollbackMessage tv reason,
      (getVersionState s vid).map (fun f =>
        ⟨f.field_name, f.field_value, f.field_type, Source.manual⟩),
      some ["rollback"], some "system"⟩ with hreqdef
  have hroll : rollback s u vid reason ts rand = commit s req ts rand := by
    unfold rollback
    rw [hid]
  have hchanges_names : req.changes.map (·.field_name) = tgtRows.map (·.field_name) := by
    rw [hreqdef]
    dsimp only
    rw [htgt, List.map_map]
    rfl
  have hrec : commitStateRecords s.fields req.changes ts s.nextId cvOpt
      = tgtRows.map (fun f =>
          ⟨s.nextId, f.field_name, f.field_value, f.field_type, Source.manual, ts⟩) := by
    have hmapped : req.changes.map (fun c =>
        ({ version_id := s.nextId, field_name := c.field_name,
           field_value := c.field_value, field_type := c.field_type,
           source := c.source, updated_at := ts } : FieldRow))
        = tgtRows.map (fun f =>
          ⟨s.nextId, f.field_name, f.field_value, f.field_type, Source.manual, ts⟩) := by
      rw [hreqdef]
      dsimp only
      rw [htgt, List.map_map]
      rfl
    unfold commitStateRecords
    cases cvOpt with
    | none => exact hmapped
    | some cv =>
      dsimp only
      rw [hmapped]
      have hempty : ((s.fields.filter (fun f => f.version_id == cv.id)).filter
          (fun f => !((req.changes.map (·.field_name)).contains f.field_name))) = [] := by
        rw [List.filter_eq_nil_iff]
        intro f hf
        obtain ⟨g, hg, hgv, hgn⟩ := hsub cv rfl f (List.mem_of_mem_filter hf)
          (by simpa using (List.mem_filter.mp hf).2)
        have hmem : f.field_name ∈ req.changes.map (·.field_name) := by
          rw [hchanges_names]
          exact List.mem_map.mpr ⟨g, List.mem_filter.mpr ⟨hg, by simpa using hgv⟩, hgn⟩
        have hcontains : ((req.changes.map (·.field_name)).contains f.field_name)
            = true := List.elem_iff.mpr hmem
        simp only [hcontains, Bool.not_true, Bool.false_eq_true, not_false_eq_true]
      rw [hempty, List.map_nil, List.append_nil]
  have hids : ∀ f ∈ tgtRows.map (fun f =>
      (⟨s.nextId, f.field_name, f.field_value, f.field_type,
        Source.manual, ts⟩ : FieldRow)), f.version_id = s.nextId := by
    intro f hf
    obtain ⟨g, _, rfl⟩ := List.mem_map.mp hf
    rfl
  have hnames : ((tgtRows.map (fun f =>
      (⟨s.nextId, f.field_name, f.field_value, f.field_type,
        Source.manual, ts⟩ : FieldRow))).map (·.field_name)).Nodup := by
    rw [List.map_map]
    exact names_nodup_of_WF s hWF vid
  have hkeys : ((s.fields ++ commitStateRecords s.fields req.changes ts s.nextId
      cvOpt).map fieldKey).Nodup := by
    rw [hrec]
    exact hkeys_of_fresh s hWF _ hids hnames
  have hcommit := commit_eq_ok s req ts rand cvOpt hcur hhash hkeys
  refine ⟨_, _, hroll.trans hcommit, ?_, ?_, ?_⟩
  · have htvmem : tv ∈ s.versions :=
      List.mem_of_mem_filter (htv ▸ List.mem_singleton_self tv)
    exact Ne.symm (Nat.ne_of_lt (hWF.version_ids tv htvmem))
  · rw [getCurrentVersion_ok_some_iff]
    show List.filter _ _ = _
    rw [show (fun (w : VersionRow) => w.user_id == u && w.is_current)
        = (fun w => w.user_id == (commitNewVersion s req ts rand cvOpt).user_id
          && w.is_current) from rfl]
    exact currentRows_trigger_self s.versions (commitNewVersion s req ts rand cvOpt) rfl
      (fun w hw _ _ => Nat.ne_of_lt (hWF.version_ids w hw))
  · show fieldPairs (getVersionState
        ⟨enforceSingleCurrentTrigger s.versions (commitNewVersion s req ts rand cvOpt)
            ++ [commitNewVersion s req ts rand cvOpt],
          s.fields ++ commitStateRecords s.fields req.changes ts s.nextId cvOpt,
          s.changes ++ commitChangeRecords (prevStateOf s cvOpt) req.changes ts s.nextId,
          s.nextId + 1⟩
        (commitNewVersion s req ts rand cvOpt).id) = _
    rw [hrec]
    rw [show (commitNewVersion s req ts rand cvOpt).id = s.nextId from rfl]
    rw [getVersionState_fresh s hWF _ _ _ _ hids hnames]
    rw [htgt]
    unfold fieldPairs
    rw [List.map_map]
    rfl

end VersionControlEngine
namespace VersionControlEngine

set_option maxRecDepth 8192 in
/-- Counterexample to C3 as stated: in the concrete store whose history
is commit `{a: 1}` (version 0) then commit `{b: "x"}` (version 1,
current), rolling back to version 0 succeeds, but the resulting current
field set is `{a: 1, b: "x"}` — the copy-forward step carried `b` along
— which is not structurally equal to version 0's field set `{a: 1}`. -/
theorem rollback_content_counterexample :
    (rollback exStore2 "u" 0 none 3 2).2.isOk = true
    ∧ (readCurrentState (rollback exStore2 "u" 0 none 3 2).1 "u").map fieldPairs
        = some [("a", .num 1), ("b", .str "x")]
    ∧ fieldPairs (getVersionState exStore2 0) = [("a", .num 1)]
    ∧ (readCurrentState (rollback exStore2 "u" 0 none 3 2).1 "u").map fieldPairs
        ≠ some (fieldPairs (getVersionState exStore2 0)) :=
  ⟨by decide, by decide, by decide, by decide⟩

set_option maxRecDepth 8192 in
/-- Witness for the amended C3: rolling the one-version store back to
its own current version restores exactly that field set. -/
theorem rollback_restores_target_fields_witness :
    ∃ s' v', rollback exStoreAB "u" 0 none 9 3 = (s', .ok v')
      ∧ v'.id ≠ exVcur.id
      ∧ getCurrentVersion s' "u" = .ok (some v')
      ∧ fieldPairs (getVersionState s' v'.id)
          = fieldPairs (getVersionState exStoreAB 0) :=
  rollback_restores_target_fields exStoreAB "u" 0 none 9 3 exVcur (some exVcur)
    ⟨by decide, by decide, by decide⟩ (by decide) rfl
    (by intro cv hcv f hf hfv
        cases hcv
        exact (show ∀ f ∈ exStoreAB.fields, f.version_id = exVcur.id →
            ∃ g ∈ exStoreAB.fields, g.version_id = 0 ∧ g.field_name = f.field_name
          by decide) f hf hfv)
    (by decide)

end VersionControlEngine
namespace VersionControlEngine

/-- The trigger rewrites rows in place: the row count is unchanged. -/
theorem trigger_length (vs : List VersionRow) (v : VersionRow) :
    (enforceSingleCurrentTrigger vs v).length = vs.length := by
  unfold enforceSingleCurrentTrigger
  by_cases hv : v.is_current = true
  · rw [if_pos hv, List.length_map]
  · rw [if_neg hv]

/-- C4 (amended).  Commit performs no input validation: an empty updates
list is accepted — the commit succeeds, a new Version row is written
(with the parent's fields copied forward) and no Change rows are
appended — and a duplicate field name is not rejected up front: it
surfaces only as the store's unique-constraint error on the field
insert, after the Version row has already been written. -/
theorem commit_no_validation (s : Store) (req : CommitRequest) (ts rand : Nat)
    (cvOpt : Option VersionRow)
    (hcur : getCurrentVersion s req.user_id = .ok cvOpt)
    (hhash : ((s.versions.map (·.version_hash)).contains
      (generateVersionHash req.user_id req.commit_message ts rand)) = false) :
    (req.changes = [] → s.WF →
      ∃ s' v, commit s req ts rand = (s', .ok v)
        ∧ s'.versions.length = s.versions.length + 1
        ∧ s'.changes = s.changes)
    ∧ (¬ (req.changes.map (·.field_name)).Nodup →
      ∃ s', commit s req ts rand
          = (s', .error ("Failed to insert state: "
              ++ "duplicate key value violates unique constraint unique_field_per_version"))
        ∧ s'.versions.length = s.versions.length + 1) := by
  constructor
  · intro hempt hWF
    have hnames : ((commitStateRecords s.fields req.changes ts s.nextId cvOpt).map
        (·.field_name)).Nodup := by
      unfold commitStateRecords
      rw [hempt]
      cases cvOpt with
      | none => simp
      | some cv =>
        dsimp only
        simp only [List.map_nil, List.contains_nil, Bool.not_false, List.nil_append,
          List.filter_true, List.map_map]
        exact names_nodup_of_WF s hWF cv.id
    have hkeys : ((s.fields
        ++ commitStateRecords s.fields req.changes ts s.nextId cvOpt).map
        fieldKey).Nodup :=
      hkeys_of_fresh s hWF _ (commitStateRecords_version_id _ _ _ _ _) hnames
    refine ⟨_, _, commit_eq_ok s req ts rand cvOpt hcur hhash hkeys, ?_, ?_⟩
    · show (enforceSingleCurrentTrigger s.versions _ ++ [_]).length = _
      rw [List.length_append, trigger_length]
      rfl
    · show s.changes ++ commitChangeRecords (prevStateOf s cvOpt) req.changes ts s.nextId
        = s.changes
      rw [show commitChangeRecords (prevStateOf s cvOpt) req.changes ts s.nextId
          = [] by unfold commitChangeRecords; rw [hempt]; rfl]
      exact List.append_nil s.changes
  · intro hdup
    have hnotkeys : ¬ ((s.fields
        ++ commitStateRecords s.fields req.changes ts s.nextId cvOpt).map
        fieldKey).Nodup := by
      intro hk
      rw [List.map_append, List.nodup_append] at hk
      have hrec := hk.2.1
      have hpart : ((req.changes.map (fun c =>
          ({ version_id := s.nextId, field_name := c.field_name,
             field_value := c.field_value, field_type := c.field_type,
             source := c.source, updated_at := ts } : FieldRow))).map fieldKey).Nodup := by
        unfold commitStateRecords at hrec
        cases cvOpt with
        | none => exact hrec
        | some cv =>
          rw [List.map_append] at hrec
          exact hrec.of_append_left
      rw [List.map_map] at hpart
      have hpairs : (req.changes.map
          (fun c => ((s.nextId, c.field_name) : Nat × String))).Nodup := hpart
      have : ((req.changes.map (·.field_name)).map
          (fun n => ((s.nextId, n) : Nat × String))).Nodup := by
        rw [List.map_map]
        exact hpairs
      exact hdup this.of_map
    exact ⟨_, commit_eq_fieldsErr s req ts rand cvOpt hcur hhash hnotkeys, by
      show (enforceSingleCurrentTrigger s.versions _ ++ [_]).length = _
      rw [List.length_append, trigger_length]
      rfl⟩

end VersionControlEngine
namespace VersionControlEngine

set_option maxRecDepth 8192 in
/-- Counterexample to C4 as stated: a commit whose updates list is empty
does not fail with a validation error — it succeeds, and it does write
(a Version row is created). -/
theorem commit_validation_counterexample :
    (commit Store.empty exReqEmpty 1 0).2.isOk = true
    ∧ (commit Store.empty exReqEmpty 1 0).1.versions.length = 1
    ∧ (commit Store.empty exReqEmpty 1 0).1.changes = [] :=
  ⟨by decide, by decide, by decide⟩

set_option maxRecDepth 8192 in
/-- Witness for the amended C4 at concrete inputs: the empty-updates
commit succeeds with one new version and no audit rows; the
duplicate-name commit fails with the store's unique-constraint error,
the version row already written. -/
theorem commit_no_validation_witness :
    (∃ s' v, commit Store.empty exReqEmpty 1 0 = (s', .ok v)
      ∧ s'.versions.length = Store.empty.versions.length + 1
      ∧ s'.changes = Store.empty.changes)
    ∧ (∃ s', commit Store.empty exReqDup 1 0
        = (s', .error ("Failed to insert state: "
            ++ "duplicate key value violates unique constraint unique_field_per_version"))
      ∧ s'.versions.length = Store.empty.versions.length + 1) :=
  ⟨(commit_no_validation Store.empty exReqEmpty 1 0 none rfl (by decide)).1 rfl
      ⟨by decide, by decide, by decide⟩,
   (commit_no_validation Store.empty exReqDup 1 0 none rfl (by decide)).2 (by decide)⟩

end VersionControlEngine
namespace VersionControlEngine

theorem pickLatestStep_none (v : VersionRow) : pickLatestStep none v = some v := rfl

theorem pickLatestStep_some (x v : VersionRow) :
    pickLatestStep (some x) v
      = if x.created_at < v.created_at then some v else some x := rfl

/-- What the `ORDER BY created_at DESC LIMIT 1` fold returns: an element
of the list (or the seed), with `created_at` at least every list
element's and at least the seed's. -/
theorem pickLatest_aux (l : List VersionRow) :
    ∀ acc : Option VersionRow, ∀ w, l.foldl pickLatestStep acc = some w →
      (w ∈ l ∨ acc = some w)
        ∧ (∀ v ∈ l, v.created_at ≤ w.created_at)
        ∧ (∀ x, acc = some x → x.created_at ≤ w.created_at) := by
  induction l with
  | nil =>
    intro acc w h
    rw [List.foldl_nil] at h
    refine ⟨Or.inr h, by simp, fun x hx => ?_⟩
    rw [hx] at h
    injection h with h
    rw [h]
  | cons v tl ih =>
    intro acc w h
    rw [List.foldl_cons] at h
    obtain ⟨h1, h2, h3⟩ := ih _ w h
    have hstep : ∀ y, pickLatestStep acc v = some y → y.created_at ≤ w.created_at := h3
    refine ⟨?_, ?_, ?_⟩
    · rcases h1 with h1 | h1
      · exact Or.inl (List.mem_cons_of_mem v h1)
      · cases acc with
        | none =>
          rw [pickLatestStep_none] at h1
          injection h1 with h1
          exact Or.inl (h1 ▸ List.mem_cons_self v tl)
        | some x =>
          rw [pickLatestStep_some] at h1
          by_cases hlt : x.created_at < v.created_at
          · rw [if_pos hlt] at h1
            injection h1 with h1
            exact Or.inl (h1 ▸ List.mem_cons_self v tl)
          · rw [if_neg hlt] at h1
            exact Or.inr h1
    · intro z hz
      rcases List.mem_cons.mp hz with hz1 | hz
      · rw [hz1]
        cases acc with
        | none => exact hstep v (pickLatestStep_none v)
        | some x =>
          by_cases hlt : x.created_at < v.created_at
          · exact hstep v (by rw [pickLatestStep_some, if_pos hlt])
          · exact le_trans (Nat.le_of_not_lt hlt)
              (hstep x (by rw [pickLatestStep_some, if_neg hlt]))
      · exact h2 z hz
    · intro x hx
      subst hx
      by_cases hlt : x.created_at < v.created_at
      · exact le_trans (Nat.le_of_lt hlt)
          (hstep v (by rw [pickLatestStep_some, if_pos hlt]))
      · exact hstep x (by rw [pickLatestStep_some, if_neg hlt])

/-- The fold of a nonempty list yields a row. -/
theorem pickLatest_ne_none (l : List VersionRow) (h : l ≠ []) :
    pickLatest l ≠ none := by
  suffices haux : ∀ (l : List VersionRow) (acc : Option VersionRow),
      acc ≠ none ∨ l ≠ [] → l.foldl pickLatestStep acc ≠ none by
    exact haux l none (Or.inr h)
  intro l
  induction l with
  | nil =>
    intro acc hacc
    rcases hacc with hacc | hacc
    · exact hacc
    · exact absurd rfl hacc
  | cons v tl ih =>
    intro acc _
    rw [List.foldl_cons]
    refine ih _ (Or.inl ?_)
    cases acc with
    | none => simp [pickLatestStep_none]
    | some x =>
      rw [pickLatestStep_some]
      by_cases hlt : x.created_at < v.created_at
      · rw [if_pos hlt]; simp
      · rw [if_neg hlt]; simp

end VersionControlEngine
namespace VersionControlEngine

/-- C5.  Temporal equivalence: `getStateAtTime(owner, T)` returns the
state assembled from the owner's version `V` with the greatest
`created_at ≤ T` — the same version and the same full field set that
`getVersionState(V)` yields — and not-found (`null`) when the owner has
no version with `created_at ≤ T`. -/
theorem getStateAtTime_temporal_equiv (s : Store) (u : String) (ts : Nat) :
    (∀ V ∈ s.versions, V.user_id = u → V.created_at ≤ ts →
      (∀ W ∈ s.versions, W.user_id = u → W.created_at ≤ ts → W ≠ V →
        W.created_at < V.created_at) →
      getStateAtTime s u ts = .ok (some (mkBusinessState s V))
        ∧ (mkBusinessState s V).version_id = V.id
        ∧ (mkBusinessState s V).fields = (getVersionState s V.id).map (fun f =>
            (f.field_name, ⟨f.field_value, f.field_type, f.source, f.updated_at⟩)))
    ∧ ((∀ W ∈ s.versions, W.user_id = u → ¬ W.created_at ≤ ts) →
      getStateAtTime s u ts = .ok none) := by
  constructor
  · intro V hV hVu hVt hmax
    have hVf : V ∈ s.versions.filter
        (fun v => v.user_id == u && decide (v.created_at ≤ ts)) :=
      List.mem_filter.mpr ⟨hV, by simp [hVu, hVt]⟩
    have hne : s.versions.filter
        (fun v => v.user_id == u && decide (v.created_at ≤ ts)) ≠ [] :=
      List.ne_nil_of_mem hVf
    obtain ⟨w, hw⟩ := Option.ne_none_iff_exists'.mp (pickLatest_ne_none _ hne)
    obtain ⟨hw1, hw2, _⟩ := pickLatest_aux _ none w hw
    have hwmem : w ∈ s.versions.filter
        (fun v => v.user_id == u && decide (v.created_at ≤ ts)) := by
      rcases hw1 with hw1 | hw1
      · exact hw1
      · exact absurd hw1 (by simp)
    have hweq : w = V := by
      by_contra hne'
      have hcond := List.mem_filter.mp hwmem
      have hwu : w.user_id = u := by
        have := hcond.2
        simp only [Bool.and_eq_true, beq_iff_eq, decide_eq_true_eq] at this
        exact this.1
      have hwt : w.created_at ≤ ts := by
        have := hcond.2
        simp only [Bool.and_eq_true, beq_iff_eq, decide_eq_true_eq] at this
        exact this.2
      have hlt := hmax w hcond.1 hwu hwt hne'
      have hle := hw2 V hVf
      exact Nat.lt_irrefl _ (Nat.lt_of_le_of_lt hle hlt)
    have hlatest : latestAtOrBefore s u ts = some V := by
      unfold latestAtOrBefore pickLatest
      rw [show (s.versions.filter
          (fun v => v.user_id == u && decide (v.created_at ≤ ts))).foldl
            pickLatestStep none = some w from hw, hweq]
    refine ⟨?_, rfl, rfl⟩
    unfold getStateAtTime
    rw [hlatest]
  · intro h
    have hnil : s.versions.filter
        (fun v => v.user_id == u && decide (v.created_at ≤ ts)) = [] := by
      rw [List.filter_eq_nil_iff]
      intro v hv
      simp only [Bool.and_eq_true, beq_iff_eq, decide_eq_true_eq, not_and]
      exact h v hv
    unfold getStateAtTime latestAtOrBefore
    rw [hnil]
    rfl

end VersionControlEngine
namespace VersionControlEngine

set_option maxRecDepth 8192 in
/-- Witness for C5: in the two-commit store, querying at `t = 1` returns
version 0's state, and querying at `t = 0` (before the first commit)
returns not-found. -/
theorem getStateAtTime_temporal_equiv_witness :
    getStateAtTime exStore2 "u" 1 = .ok (some (mkBusinessState exStore2 exV0))
    ∧ getStateAtTime exStore2 "u" 0 = .ok none :=
  ⟨((getStateAtTime_temporal_equiv exStore2 "u" 1).1 exV0 (by decide) (by decide)
      (by decide) (by decide)).1,
   (getStateAtTime_temporal_equiv exStore2 "u" 0).2 (by decide)⟩

end VersionControlEngine
namespace VersionControlEngine

/-- C6 (amended).  When the store holds more than one current row for an
owner, `getCurrentVersion` reports plain not-found (`null`): the
multi-row outcome of `.single()` carries the same `PGRST116` code as the
zero-row outcome, and the engine's error handling swallows exactly that
code.  No distinct consistency error is surfaced. -/
theorem getCurrentVersion_multi_current (s : Store) (u : String)
    (h : 1 < (currentRows s u).length) :
    getCurrentVersion s u = .ok none := by
  rw [getCurrentVersion_eq_ok]
  rcases hr : currentRows s u with _ | ⟨v, _ | ⟨w, tl⟩⟩
  · rw [hr] at h
    simp at h
  · rw [hr] at h
    simp at h
  · rfl

/-- Counterexample to C6 as stated: a store with two current rows for
owner `"u"` makes `getCurrentVersion` return `null` — indistinguishable
from the ordinary not-found result — instead of failing with a distinct
consistency error. -/
theorem getCurrentVersion_consistency_counterexample :
    (currentRows exTwoCurrent "u").length = 2
    ∧ getCurrentVersion exTwoCurrent "u" = .ok none
    ∧ getCurrentVersion exTwoCurrent "nobody" = .ok none :=
  ⟨by decide, rfl, rfl⟩

/-- Witness for the amended C6 at the concrete two-current store. -/
theorem getCurrentVersion_multi_current_witness :
    getCurrentVersion exTwoCurrent "u" = .ok none :=
  getCurrentVersion_multi_current exTwoCurrent "u" (by decide)

end VersionControlEngine
/-- `firstDedup` keeps exactly the members of its input. -/
theorem firstDedup_mem (l : List String) (x : String) :
    x ∈ firstDedup l ↔ x ∈ l := by
  suffices haux : ∀ (l : List String) (acc : List String),
      x ∈ l.foldl (fun acc n => if acc.contains n then acc else acc ++ [n]) acc
        ↔ x ∈ acc ∨ x ∈ l by
    rw [firstDedup, haux, List.mem_nil_iff]
    simp
  intro l
  induction l with
  | nil => intro acc; simp
  | cons n tl ih =>
    intro acc
    rw [List.foldl_cons, ih]
    have hstep : x ∈ (if acc.contains n then acc else acc ++ [n])
        ↔ x ∈ acc ∨ x = n := by
      by_cases hc : acc.contains n = true
      · rw [if_pos hc]
        constructor
        · exact Or.inl
        · rintro (hx | rfl)
          · exact hx
          · exact List.elem_iff.mp hc
      · rw [if_neg hc]
        simp
    rw [hstep]
    simp only [List.mem_cons]
    tauto

/-- A field with a value on the from side contributes its name to the
join's name set. -/
theorem mem_diffNames_left (s : Store) (A B : Nat) (n : String) (w : JsonValue)
    (h : sqlFieldValue s A n = some w) : n ∈ diffNames s A B := by
  unfold sqlFieldValue at h
  obtain ⟨f, hfind, _⟩ := Option.map_eq_some'.mp h
  have hmem := List.mem_of_find?_eq_some hfind
  have hname : f.field_name = n := by
    have := List.find?_some hfind
    simpa using this
  unfold diffNames
  rw [firstDedup_mem, List.mem_append]
  exact Or.inl (List.mem_map.mpr ⟨f, hmem, hname⟩)

/-- A field with a value on the to side contributes its name too. -/
theorem mem_diffNames_right (s : Store) (A B : Nat) (n : String) (w : JsonValue)
    (h : sqlFieldValue s B n = some w) : n ∈ diffNames s A B := by
  unfold sqlFieldValue at h
  obtain ⟨f, hfind, _⟩ := Option.map_eq_some'.mp h
  have hmem := List.mem_of_find?_eq_some hfind
  have hname : f.field_name = n := by
    have := List.find?_some hfind
    simpa using this
  unfold diffNames
  rw [firstDedup_mem, List.mem_append]
  exact Or.inr (List.mem_map.mpr ⟨f, hmem, hname⟩)

/-- A produced diff row carries the joined field name. -/
theorem diffRowFor_name (s : Store) (A B : Nat) (n : String) (r : DiffRow)
    (h : diffRowFor s A B n = some r) : r.field_name = n := by
  unfold diffRowFor at h
  by_cases hc : sqlFieldValue s A n ≠ sqlFieldValue s B n
  · rw [if_pos hc] at h
    injection h with h
    rw [← h]
  · rw [if_neg hc] at h
    cases h

/-- Membership in the diff result, characterised by the per-name row. -/
theorem mem_calculate_version_diff (s : Store) (A B : Nat) (r : DiffRow) :
    r ∈ calculate_version_diff s A B
      ↔ r.field_name ∈ diffNames s A B ∧ diffRowFor s A B r.field_name = some r := by
  unfold calculate_version_diff
  rw [List.mem_filterMap]
  constructor
  · rintro ⟨m, hm, hrow⟩
    have hn := diffRowFor_name s A B m r hrow
    rw [hn]
    exact ⟨hm, hrow⟩
  · rintro ⟨h1, h2⟩
    exact ⟨r.field_name, h1, h2⟩
/-- Spelling out `diffRowFor` when the two values differ. -/
theorem diffRowFor_of_ne (s : Store) (A B : Nat) (n : String)
    (h : sqlFieldValue s A n ≠ sqlFieldValue s B n) :
    diffRowFor s A B n = some
      { field_name := n
        old_value := sqlFieldValue s A n
        new_value := sqlFieldValue s B n
        change_type :=
          if (sqlFieldValue s A n).isNone then .added
          else if (sqlFieldValue s B n).isNone then .removed
          else if sqlFieldValue s A n ≠ sqlFieldValue s B n then .modified
          else .unchanged } := by
  unfold diffRowFor
  rw [if_pos h]

/-- `diffRowFor` never produces an `unchanged` row: equal values are
filtered away beforehand. -/
theorem diffRowFor_ne_unchanged (s : Store) (A B : Nat) (n : String) (r : DiffRow)
    (h : diffRowFor s A B n = some r) : r.change_type ≠ DiffType.unchanged := by
  by_cases hc : sqlFieldValue s A n ≠ sqlFieldValue s B n
  · rw [diffRowFor_of_ne s A B n hc] at h
    injection h with h
    rw [← h]
    by_cases h1 : (sqlFieldValue s A n).isNone = true
    · simp only [h1, if_true]
      intro hx
      cases hx
    · simp only [h1, Bool.false_eq_true, if_false]
      by_cases h2 : (sqlFieldValue s B n).isNone = true
      · simp only [h2, if_true]
        intro hx
        cases hx
      · simp only [h2, Bool.false_eq_true, if_false, if_pos hc]
        intro hx
        cases hx
  · unfold diffRowFor at h
    rw [if_neg hc] at h
    cases h

/-- An `added` row for `n` exists exactly when `n` is absent on the from
side and present on the to side. -/
theorem added_iff (s : Store) (A B : Nat) (n : String) :
    (∃ r ∈ calculate_version_diff s A B, r.field_name = n
      ∧ r.change_type = DiffType.added)
    ↔ (sqlFieldValue s A n = none ∧ ∃ w, sqlFieldValue s B n = some w) := by
  constructor
  · rintro ⟨r, hr, hname, htype⟩
    obtain ⟨_, hrow⟩ := (mem_calculate_version_diff s A B r).mp hr
    rw [hname] at hrow
    by_cases hc : sqlFieldValue s A n ≠ sqlFieldValue s B n
    · rw [diffRowFor_of_ne s A B n hc] at hrow
      injection hrow with hrow
      have htype' := congrArg DiffRow.change_type hrow
      rw [htype] at htype'
      by_cases h1 : (sqlFieldValue s A n).isNone = true
      · have hA : sqlFieldValue s A n = none := Option.isNone_iff_eq_none.mp h1
        refine ⟨hA, ?_⟩
        rcases hB : sqlFieldValue s B n with _ | w
        · rw [hA, hB] at hc
          exact absurd rfl hc
        · exact ⟨w, rfl⟩
      · simp only [h1, Bool.false_eq_true, if_false] at htype'
        by_cases h2 : (sqlFieldValue s B n).isNone = true
        · rw [if_pos h2] at htype'
          cases htype'
        · simp only [h2, Bool.false_eq_true, if_false, if_pos hc] at htype'
          cases htype'
    · unfold diffRowFor at hrow
      rw [if_neg hc] at hrow
      cases hrow
  · rintro ⟨hA, w, hB⟩
    have hne : sqlFieldValue s A n ≠ sqlFieldValue s B n := by
      rw [hA, hB]
      simp
    refine ⟨⟨n, none, some w, DiffType.added⟩, ?_, rfl, rfl⟩
    rw [mem_calculate_version_diff]
    refine ⟨mem_diffNames_right s A B n w hB, ?_⟩
    rw [diffRowFor_of_ne s A B n hne, hA, hB]
    rfl

/-- A `removed` row for `n` exists exactly when `n` is present on the
from side and absent on the to side. -/
theorem removed_iff (s : Store) (A B : Nat) (n : String) :
    (∃ r ∈ calculate_version_diff s A B, r.field_name = n
      ∧ r.change_type = DiffType.removed)
    ↔ (sqlFieldValue s B n = none ∧ ∃ w, sqlFieldValue s A n = some w) := by
  constructor
  · rintro ⟨r, hr, hname, htype⟩
    obtain ⟨_, hrow⟩ := (mem_calculate_version_diff s A B r).mp hr
    rw [hname] at hrow
    by_cases hc : sqlFieldValue s A n ≠ sqlFieldValue s B n
    · rw [diffRowFor_of_ne s A B n hc] at hrow
      injection hrow with hrow
      have htype' := congrArg DiffRow.change_type hrow
      rw [htype] at htype'
      by_cases h1 : (sqlFieldValue s A n).isNone = true
      · rw [if_pos h1] at htype'
        cases htype'
      · simp only [h1, Bool.false_eq_true, if_false] at htype'
        by_cases h2 : (sqlFieldValue s B n).isNone = true
        · have hB : sqlFieldValue s B n = none := Option.isNone_iff_eq_none.mp h2
          refine ⟨hB, ?_⟩
          rcases hA : sqlFieldValue s A n with _ | w
          · rw [hA] at h1
            simp at h1
          · exact ⟨w, rfl⟩
        · simp only [h2, Bool.false_eq_true, if_false, if_pos hc] at htype'
          cases htype'
    · unfold diffRowFor at hrow
      rw [if_neg hc] at hrow
      cases hrow
  · rintro ⟨hB, w, hA⟩
    have hne : sqlFieldValue s A n ≠ sqlFieldValue s B n := by
      rw [hA, hB]
      simp
    refine ⟨⟨n, some w, none, DiffType.removed⟩, ?_, rfl, rfl⟩
    rw [mem_calculate_version_diff]
    refine ⟨mem_diffNames_left s A B n w hA, ?_⟩
    rw [diffRowFor_of_ne s A B n hne, hA, hB]
    rfl
namespace VersionControlEngine

/-- The engine's `diff` never fails and passes the RPC rows through
unchanged (the two id validations swallow `PGRST116`). -/
theorem diff_eq_ok (s : Store) (A B ts : Nat) :
    diff s A B ts = .ok ⟨A, B, calculate_version_diff s A B, ts⟩ := by
  unfold diff
  rw [getVersionById_eq_ok, getVersionById_eq_ok]

end VersionControlEngine

/-- C7 (amended).  Diff classification: the engine's `diff` returns the
RPC's row set, which classifies every field name with differing values
as `added` (only in the to version), `removed` (only in the from
version) or `modified` (present in both, structurally unequal) — but a
field present in both versions with equal values produces *no* row at
all: the `WHERE ... IS DISTINCT FROM` filter omits it, so `unchanged`
entries are never reported. -/
theorem diff_classification (s : Store) (A B ts : Nat) :
    VersionControlEngine.diff s A B ts
        = .ok ⟨A, B, calculate_version_diff s A B, ts⟩
    ∧ (∀ n w, sqlFieldValue s A n = none → sqlFieldValue s B n = some w →
        (⟨n, none, some w, DiffType.added⟩ : DiffRow) ∈ calculate_version_diff s A B)
    ∧ (∀ n w, sqlFieldValue s A n = some w → sqlFieldValue s B n = none →
        (⟨n, some w, none, DiffType.removed⟩ : DiffRow) ∈ calculate_version_diff s A B)
    ∧ (∀ n w₁ w₂, sqlFieldValue s A n = some w₁ → sqlFieldValue s B n = some w₂ →
        w₁ ≠ w₂ →
        (⟨n, some w₁, some w₂, DiffType.modified⟩ : DiffRow)
          ∈ calculate_version_diff s A B)
    ∧ (∀ n, sqlFieldValue s A n = sqlFieldValue s B n →
        ∀ r ∈ calculate_version_diff s A B, r.field_name ≠ n)
    ∧ (∀ r ∈ calculate_version_diff s A B, r.change_type ≠ DiffType.unchanged) := by
  refine ⟨VersionControlEngine.diff_eq_ok s A B ts, ?_, ?_, ?_, ?_, ?_⟩
  · intro n w hA hB
    have hne : sqlFieldValue s A n ≠ sqlFieldValue s B n := by
      rw [hA, hB]
      simp
    rw [mem_calculate_version_diff]
    refine ⟨mem_diffNames_right s A B n w hB, ?_⟩
    rw [diffRowFor_of_ne s A B n hne, hA, hB]
    rfl
  · intro n w hA hB
    have hne : sqlFieldValue s A n ≠ sqlFieldValue s B n := by
      rw [hA, hB]
      simp
    rw [mem_calculate_version_diff]
    refine ⟨mem_diffNames_left s A B n w hA, ?_⟩
    rw [diffRowFor_of_ne s A B n hne, hA, hB]
    rfl
  · intro n w₁ w₂ hA hB hw
    have hne : sqlFieldValue s A n ≠ sqlFieldValue s B n := by
      rw [hA, hB]
      simp [hw]
    rw [mem_calculate_version_diff]
    refine ⟨mem_diffNames_left s A B n w₁ hA, ?_⟩
    rw [diffRowFor_of_ne s A B n hne, hA, hB,
      if_pos (show (some w₁ : Option JsonValue) ≠ some w₂ by simp [hw])]
    rfl
  · intro n heq r hr hname
    obtain ⟨_, hrow⟩ := (mem_calculate_version_diff s A B r).mp hr
    rw [hname] at hrow
    unfold diffRowFor at hrow
    rw [if_neg (fun h => h heq)] at hrow
    cases hrow
  · intro r hr
    obtain ⟨_, hrow⟩ := (mem_calculate_version_diff s A B r).mp hr
    exact diffRowFor_ne_unchanged s A B r.field_name r hrow
set_option maxRecDepth 8192 in
/-- Counterexample to C7 as stated: in the two-commit store, field `a`
is present with the equal value `1` in both versions, yet the diff
reports no row for `a` whatsoever — the unchanged entry is omitted, not
reportable. -/
theorem diff_unchanged_counterexample :
    sqlFieldValue exStore2 0 "a" = some (.num 1)
    ∧ sqlFieldValue exStore2 1 "a" = some (.num 1)
    ∧ (calculate_version_diff exStore2 0 1).filter (fun r => r.field_name == "a") = []
    ∧ ∀ r ∈ calculate_version_diff exStore2 0 1,
        r.change_type ≠ DiffType.unchanged :=
  ⟨by decide, by decide, by decide, by decide⟩

set_option maxRecDepth 8192 in
/-- Witness for the amended C7: in the two-commit store, `b` (absent in
version 0, present in version 1) yields an `added` row. -/
theorem diff_classification_witness :
    (⟨"b", none, some (.str "x"), DiffType.added⟩ : DiffRow)
      ∈ calculate_version_diff exStore2 0 1 :=
  (diff_classification exStore2 0 1 9).2.1 "b" (.str "x") (by decide) (by decide)

/-- C8.  Diff symmetry: `diff(A, B)` reports a field as `added` exactly
when `diff(B, A)` reports it as `removed` — both reduce to "absent in
`A`'s field set, present in `B`'s". -/
theorem diff_symmetry (s : Store) (A B : Nat) (n : String) :
    (∃ r ∈ calculate_version_diff s A B, r.field_name = n
      ∧ r.change_type = DiffType.added)
    ↔ (∃ r ∈ calculate_version_diff s B A, r.field_name = n
      ∧ r.change_type = DiffType.removed) := by
  rw [added_iff, removed_iff]
namespace VersionControlEngine

set_option maxRecDepth 8192 in
/-- Counterexample to C9 as stated: two hash computations with identical
owner (`"u"`), message (`"m"`) and creation time (`1`) but different
`Math.random()` draws produce different hashes — the hash is not a
function of owner, message and creation time alone. -/
theorem generateVersionHash_counterexample :
    generateVersionHash "u" "m" 1 0 ≠ generateVersionHash "u" "m" 1 1 := by
  decide

/-- C9 (amended).  The version hash is derived from the owner, the
message, the creation time *and* a fresh `Math.random()` draw: the
hashed content string is `userId ++ message ++ isoTime ++ random`, and
fixing owner, message and time while varying the rendered draw varies
the content — so the hash is not a function of the first three alone. -/
theorem generateVersionHash_random (u m : String) (ts r₁ r₂ : Nat)
    (h : toString r₁ ≠ toString r₂) :
    versionHashContent u m ts r₁ ≠ versionHashContent u m ts r₂
    ∧ generateVersionHash u m ts r₁ = sha1hex (versionHashContent u m ts r₁) := by
  refine ⟨?_, rfl⟩
  intro heq
  apply h
  unfold versionHashContent at heq
  have hd := congrArg String.data heq
  simp only [String.data_append] at hd
  have h1 := List.append_cancel_left hd
  exact String.ext h1

set_option maxRecDepth 4096 in
/-- Witness for the amended C9 at a concrete input. -/
theorem generateVersionHash_random_witness :
    versionHashContent "u" "m" 1 0 ≠ versionHashContent "u" "m" 1 1
    ∧ generateVersionHash "u" "m" 1 0 = sha1hex (versionHashContent "u" "m" 1 0) :=
  generateVersionHash_random "u" "m" 1 0 1 (by decide)

end VersionControlEngine
namespace VersionControlEngine

/-- C10.  Falsy old-value coercion: when a commit updates a field whose
entry exists in the parent snapshot but whose stored value is falsy
(`0`, `false`, `null` or `""`), the appended Change row records
`old_value` as null — the `|| null` coercion discards the parent's
actual value — while `change_type` is still `update`, because the
existence check is on the (always truthy) field object itself. -/
theorem falsy_old_value (s : Store) (req : CommitRequest) (ts rand : Nat)
    (cv : VersionRow) (c : ChangeInput) (f : FieldRow)
    (s' : Store) (v : VersionRow)
    (hcur : getCurrentVersion s req.user_id = .ok (some cv))
    (hc : c ∈ req.changes)
    (hf : stateLookup (getVersionState s cv.id) c.field_name = some f)
    (hfalsy : f.field_value.isTruthy = false)
    (hcommit : commit s req ts rand = (s', .ok v)) :
    s'.changes = s.changes
        ++ commitChangeRecords (getVersionState s cv.id) req.changes ts v.id
    ∧ ∀ r ∈ commitChangeRecords (getVersionState s cv.id) req.changes ts v.id,
        r.field_name = c.field_name →
        r.old_value = none ∧ r.change_type = ChangeType.update := by
  constructor
  · by_cases hh : ((s.versions.map (·.version_hash)).contains
        (generateVersionHash req.user_id req.commit_message ts rand)) = true
    · rw [commit_eq_hashErr s req ts rand (some cv) hcur hh] at hcommit
      simp at hcommit
    · rw [Bool.not_eq_true] at hh
      by_cases hk : ((s.fields ++ commitStateRecords s.fields req.changes ts s.nextId
          (some cv)).map fieldKey).Nodup
      · rw [commit_eq_ok s req ts rand (some cv) hcur hh hk] at hcommit
        injection hcommit with h1 h2
        injection h2 with h2
        subst h1
        subst h2
        rfl
      · rw [commit_eq_fieldsErr s req ts rand (some cv) hcur hh hk] at hcommit
        simp at hcommit
  · intro r hr hname
    unfold commitChangeRecords at hr
    obtain ⟨c', _, rfl⟩ := List.mem_map.mp hr
    have hname' : c'.field_name = c.field_name := hname
    rw [show stateLookup (getVersionState s cv.id) c'.field_name = some f by
      rw [hname']
      exact hf]
    constructor
    · show (if f.field_value.isTruthy then some f.field_value else none) = none
      rw [hfalsy]
      rfl
    · rfl

end VersionControlEngine

namespace VersionControlEngine

set_option maxRecDepth 8192 in
/-- Witness for C10: committing `{a: 5}` over the snapshot `{a: 0}`
appends a Change row for `a` with `old_value = null` (not `0`) and
`change_type = update`. -/
theorem falsy_old_value_witness :
    (commit exStoreZero exReqFive 2 1).1.changes
        = exStoreZero.changes ++ commitChangeRecords (getVersionState exStoreZero
            exVZero.id) exReqFive.changes 2
            (okVersion (commit exStoreZero exReqFive 2 1)).id
    ∧ ∀ r ∈ commitChangeRecords (getVersionState exStoreZero exVZero.id)
        exReqFive.changes 2 (okVersion (commit exStoreZero exReqFive 2 1)).id,
        r.field_name = "a" → r.old_value = none ∧ r.change_type = ChangeType.update :=
  falsy_old_value exStoreZero exReqFive 2 1 exVZero
    ⟨"a", .num 5, .number, .manual⟩ ⟨0, "a", .num 0, .number, .manual, 1⟩
    (commit exStoreZero exReqFive 2 1).1
    (okVersion (commit exStoreZero exReqFive 2 1))
    rfl (by decide) rfl rfl rfl

end VersionControlEngine
